import Mathlib

/-!
# HttpClient: request construction and dispatch

A shallow embedding of `src/HttpClient/HttpClient.cpp`.

* `HttpClientPrivate` is the builder's private state; the fluent methods
  (`param`, `json`, `header`, `manager`, `debug`) are state transformers.
* `createRequest` returns the request together with the updated private
  state, because the C++ function writes to `d->url` and `d->headers`.
* Library objects (`QUrlQuery`, `QHash`, `QNetworkRequest`) are modelled by
  lists; what the library computes internally (percent-encoding) is a
  documented model, and the theorems about the program do not depend on its
  details except where a concrete encoded string is asserted.
-/

namespace HttpClient

/-! ## Library model: text, bytes and percent-encoding -/

/-- UTF-8 bytes of one character (bytes are natural numbers below 256). -/
def utf8Bytes (c : Char) : List Nat :=
  let n := c.toNat
  if n < 128 then [n]
  else if n < 2048 then [192 + n / 64, 128 + n % 64]
  else if n < 65536 then [224 + n / 4096, 128 + (n / 64) % 64, 128 + n % 64]
  else [240 + n / 262144, 128 + (n / 4096) % 64, 128 + (n / 64) % 64, 128 + n % 64]

/-- Model of `QString::toUtf8`. -/
def toUtf8 (s : String) : List Nat :=
  s.data.flatMap utf8Bytes

/-- Upper-case hexadecimal digit of a number below 16. -/
def hexDigit (n : Nat) : Char :=
  if n < 10 then Char.ofNat (48 + n) else Char.ofNat (55 + n)

/-- The three characters `%XY` for one byte. -/
def percentByte (b : Nat) : List Char :=
  ['%', hexDigit (b / 16), hexDigit (b % 16)]

/-- Characters that `QUrl::FullyEncoded` leaves as they are inside a query
key or value: the unreserved characters and the delimiters other than the
pair delimiter, the value delimiter and the hash sign. -/
def keptInQuery (c : Char) : Bool :=
  c.isAlphanum || "-._~!$'()*+,/:;?@[]".data.contains c

/-- Model of the library's percent-encoding of one query key or value under
`QUrl::FullyEncoded`: a kept character is copied, any other character
(space, `&`, `=`, `#`, `%`, controls, non-ASCII) becomes `%XY` for each of
its UTF-8 bytes. -/
def percentEncode (s : String) : String :=
  String.mk (s.data.flatMap fun c => if keptInQuery c then [c] else (utf8Bytes c).flatMap percentByte)

/-- Model of `QUrlQuery`: the ordered list of (name, value) items. -/
abbrev QUrlQuery := List (String × String)

/-- Model of `QUrlQuery::addQueryItem`: append at the end. -/
def QUrlQuery.addQueryItem (q : QUrlQuery) (name value : String) : QUrlQuery :=
  q ++ [(name, value)]

/-- One item written as `name=value`, both percent-encoded. -/
def encodePair (kv : String × String) : String :=
  percentEncode kv.1 ++ "=" ++ percentEncode kv.2

/-- Model of `QUrlQuery::toString(QUrl::FullyEncoded)`: the encoded items joined by `&`. -/
def QUrlQuery.toStringEncoded (q : QUrlQuery) : String :=
  "&".intercalate (q.map encodePair)

/-- Model of `QHash<QString, QString>`: entries with pairwise distinct keys, compared
exactly (case-sensitively). The list order stands for the hash's iteration
order, which the library leaves unspecified. -/
abbrev QHash := List (String × String)

/-- Model of `hash[key] = value`: replace the entry of `key`, or add one. -/
def QHash.insert (h : QHash) (key value : String) : QHash :=
  (key, value) :: h.filter (fun e => e.1 ≠ key)

/-- Model of `hash.value(key)`, `none` when the key is absent. -/
def QHash.value (h : QHash) (key : String) : Option String :=
  h.lookup key

/-! ## The builder's private state -/

/-- Model of `HttpClientPrivate::HttpMethod`. -/
inductive HttpMethod
  | GET | POST | PUT | DELETE
  deriving DecidableEq, Repr

/-- Model of `HttpClientPrivate`: a manager is identified by a number; `none` is `NULL`. -/
structure HttpClientPrivate where
  url : String
  params : QUrlQuery
  json : String
  headers : QHash
  manager : Option Nat
  useJson : Bool
  debug : Bool
  deriving DecidableEq, Repr

/-- Model of `HttpClientPrivate::HttpClientPrivate(url)` (also `HttpClient::HttpClient`). -/
def HttpClientPrivate.new (url : String) : HttpClientPrivate :=
  { url := url, params := [], json := "", headers := [], manager := none,
    useJson := false, debug := false }

/-- Model of `HttpClient::manager`. -/
def HttpClientPrivate.setManager (d : HttpClientPrivate) (m : Option Nat) : HttpClientPrivate :=
  { d with manager := m }

/-- Model of `HttpClient::debug`. -/
def HttpClientPrivate.setDebug (d : HttpClientPrivate) (debug : Bool) : HttpClientPrivate :=
  { d with debug := debug }

/-- Model of `HttpClient::param`. -/
def HttpClientPrivate.param (d : HttpClientPrivate) (name value : String) : HttpClientPrivate :=
  { d with params := d.params.addQueryItem name value }

/-- Model of `HttpClient::json`. -/
def HttpClientPrivate.setJson (d : HttpClientPrivate) (json : String) : HttpClientPrivate :=
  { d with useJson := true, json := json }

/-- Model of `HttpClient::header`. -/
def HttpClientPrivate.header (d : HttpClientPrivate) (header value : String) : HttpClientPrivate :=
  { d with headers := d.headers.insert header value }

/-- One call of a fluent configuration method. -/
inductive Config
  | param (name value : String)
  | json (text : String)
  | header (name value : String)
  | manager (m : Option Nat)
  | debug (flag : Bool)
  deriving DecidableEq, Repr

/-- Apply one configuration call. -/
def Config.apply (d : HttpClientPrivate) : Config → HttpClientPrivate
  | .param n v => d.param n v
  | .json t => d.setJson t
  | .header n v => d.header n v
  | .manager m => d.setManager m
  | .debug f => d.setDebug f

/-- A chain of configuration calls, applied left to right. -/
def configure (d : HttpClientPrivate) (cs : List Config) : HttpClientPrivate :=
  cs.foldl Config.apply d

/-- Whether a configuration call is `json(...)`. -/
def Config.isJson : Config → Bool
  | .json _ => true
  | _ => false

/-! ## `createRequest` -/

/-- Model of `QNetworkRequest` as the program builds it: the URL string given to the
constructor and the `setRawHeader(name, value)` calls, in iteration order. -/
structure QNetworkRequest where
  url : String
  rawHeaders : List (String × String)
  deriving DecidableEq, Repr

/-- The `qDebug()` lines of `createRequest`. -/
def createRequestDebug (get : Bool) (d : HttpClientPrivate) : List String :=
  if d.debug then
    ["网址: " ++ d.url] ++
      (if !get && d.useJson then ["参数: " ++ d.json]
       else if !get && !d.useJson then ["参数: " ++ "&".intercalate (d.params.map fun kv => kv.1 ++ "=" ++ kv.2)]
       else [])
  else []

/-- Model of `HttpClientPrivate::createRequest`: the request, the private state after
the call, and the diagnostic lines written. -/
def createRequest (method : HttpMethod) (d : HttpClientPrivate) :
    QNetworkRequest × HttpClientPrivate × List String :=
  let get := decide (method = HttpMethod.GET)
  let d1 : HttpClientPrivate :=
    if get && !d.params.isEmpty then
      { d with url := d.url ++ ("?" ++ d.params.toStringEncoded) }
    else d
  let dbg := createRequestDebug get d1
  let d2 : HttpClientPrivate :=
    if !get && !d1.useJson then
      { d1 with headers := d1.headers.insert "Content-Type" "application/x-www-form-urlencoded" }
    else if !get && d1.useJson then
      let h := d1.headers.insert "Accept" "application/json; charset=utf-8"
      { d1 with headers := h.insert "Content-Type" "application/json" }
    else d1
  ({ url := d2.url, rawHeaders := d2.headers }, d2, dbg)

/-- The body handed to the transport by `executeQuery`: none for GET and
DELETE, the JSON text or the encoded form parameters for POST and PUT. The
body is computed from the state left by `createRequest`. -/
def requestBody (method : HttpMethod) (d : HttpClientPrivate) : Option (List Nat) :=
  match method with
  | .GET => none
  | .POST => some (if d.useJson then toUtf8 d.json else toUtf8 d.params.toStringEncoded)
  | .PUT => some (if d.useJson then toUtf8 d.json else toUtf8 d.params.toStringEncoded)
  | .DELETE => none


/-! ## Library model: the event loop, the transport and files

A terminal call returns at once; the reply's signals arrive later. The
world records every observable effect in order. Callbacks are closures on
the world, as the C++ lambdas are closures on the heap objects they capture. -/

/-- Heap objects the program hands to `deleteLater`. -/
inductive Obj
  | reply (id : Nat)
  | manager (id : Nat)
  | file (path : String)
  | multiPart (id : Nat)
  deriving DecidableEq, Repr

/-- The `QNetworkAccessManager` method that starts a transfer. -/
inductive Verb
  | get | post | put | deleteResource
  deriving DecidableEq, Repr

/-- What is sent along with the request. -/
inductive Body
  | none
  | bytes (data : List Nat)
  | multiPart (id : Nat) (dispositions : List String)
  deriving DecidableEq, Repr

/-- Observable effects. `success`, `error`, `finish` and `chunk` are
invocations of the caller's own callbacks. -/
inductive Event
  | debug (line : String)
  | newManager (id : Nat)
  | send (manager : Nat) (verb : Verb) (request : QNetworkRequest) (body : Body) (reply : Nat)
  | success (response : String)
  | error (message : String)
  | finish
  | chunk (data : List Nat)
  | fileWrite (path : String) (data : List Nat)
  | fileFlush (path : String)
  | fileClose (path : String)
  | deleteLater (obj : Obj)
  deriving DecidableEq, Repr

/-- The file system as the program sees it through `QFile`. -/
structure FileSystem where
  readable : String → Bool
  writable : String → Bool
  errorString : String → String
  content : String → List Nat

/-- The world: a counter for fresh object identities, the effects so far in
chronological order, and the file system. -/
structure World where
  nextId : Nat
  events : List Event
  fs : FileSystem

/-- Record one effect. -/
def World.emit (w : World) (e : Event) : World :=
  { w with events := w.events ++ [e] }

/-- Write diagnostic lines with `qDebug()`. -/
def World.debugLines (w : World) (lines : List String) : World :=
  { w with events := w.events ++ lines.map Event.debug }

/-- Model of `new QNetworkAccessManager()`. -/
def World.newManager (w : World) : Nat × World :=
  (w.nextId, { w with nextId := w.nextId + 1, events := w.events ++ [Event.newManager w.nextId] })

/-- Model of `manager->get/post/put/deleteResource(request, ...)`: a transfer starts
and its reply object is returned. -/
def World.send (w : World) (manager : Nat) (verb : Verb) (request : QNetworkRequest)
    (body : Body) : Nat × World :=
  (w.nextId, { w with nextId := w.nextId + 1,
                      events := w.events ++ [Event.send manager verb request body w.nextId] })

/-- Model of `file->open(QIODevice::WriteOnly)` on a writable path: the file is truncated. -/
def World.openTruncate (w : World) (path : String) : World :=
  { w with fs := { w.fs with content := Function.update w.fs.content path [] } }

/-- Model of `file->write(data)` on an open file: the bytes are appended. -/
def World.fileWrite (w : World) (path : String) (data : List Nat) : World :=
  { w with fs := { w.fs with content := Function.update w.fs.content path (w.fs.content path ++ data) },
           events := w.events ++ [Event.fileWrite path data] }

/-- Model of `std::function<void (const QString &)>`; `none` is `NULL`. -/
abbrev TextHandler := Option (String → World → World)

/-- Model of `std::function<void ()>`; `none` is `NULL`. -/
abbrev VoidHandler := Option (World → World)

/-- Model of `std::function<void (const QByteArray &)>`. -/
abbrev DataHandler := List Nat → World → World

/-- What a slot can read from the reply when it runs: `reply->error()` with
`reply->errorString()` (`none` is `NoError`) and the unread body bytes. -/
structure ReplyState where
  error : Option String
  unread : List Nat

/-- The slots a terminal call connects to its reply's signals. -/
structure Connections where
  reply : Nat
  onReadyRead : Option DataHandler
  onFinished : ReplyState → World → World
  onError : ReplyState → World → World

/-- How a transfer ends: the body chunks that arrived, in order, and the
transport error if there was one. -/
structure Outcome where
  chunks : List (List Nat)
  error : Option String

/-- The library delivers `readyRead` for one arriving chunk. A connected slot
calls `readAll`, which hands over and empties the unread bytes; without a
slot the bytes stay unread. -/
def deliverChunk (t : Connections) (st : World × List Nat) (c : List Nat) : World × List Nat :=
  match t.onReadyRead with
  | some slot => (slot (st.2 ++ c) st.1, [])
  | none => (st.1, st.2 ++ c)

/-- The library's signal protocol for one transfer: `readyRead` per chunk,
then, on a transport error, `error` once, then `finished` once. -/
def Connections.complete (t : Connections) (o : Outcome) (w : World) : World :=
  let st := o.chunks.foldl (deliverChunk t) (w, [])
  let r : ReplyState := { error := o.error, unread := st.2 }
  let w1 := match o.error with
    | some _ => t.onError r st.1
    | none => st.1
  t.onFinished r w1

/-- Complete a transfer if the call started one. -/
def completeOpt (t : Option Connections) (o : Outcome) (w : World) : World :=
  match t with
  | some t => t.complete o w
  | none => w

/-! ## Response decoding -/

/-- Decoder state: the characters decoded so far, the partial code point and
the number of continuation bytes still expected. -/
structure Utf8State where
  out : List Char
  acc : Nat
  need : Nat

/-- A byte met where a character starts. -/
def utf8Start (out : List Char) (b : Nat) : Utf8State :=
  if b < 128 then { out := out ++ [Char.ofNat b], acc := 0, need := 0 }
  else if 192 ≤ b ∧ b < 224 then { out := out, acc := b - 192, need := 1 }
  else if 224 ≤ b ∧ b < 240 then { out := out, acc := b - 224, need := 2 }
  else if 240 ≤ b ∧ b < 248 then { out := out, acc := b - 240, need := 3 }
  else { out := out ++ [Char.ofNat 65533], acc := 0, need := 0 }

/-- Feed one byte to the decoder; a malformed sequence yields U+FFFD. -/
def utf8Feed (s : Utf8State) (b : Nat) : Utf8State :=
  if s.need = 0 then utf8Start s.out b
  else if 128 ≤ b ∧ b < 192 then
    if s.need = 1 then
      { out := s.out ++ [Char.ofNat (s.acc * 64 + (b - 128))], acc := 0, need := 0 }
    else { out := s.out, acc := s.acc * 64 + (b - 128), need := s.need - 1 }
  else utf8Start (s.out ++ [Char.ofNat 65533]) b

/-- Lossy UTF-8 decoding of a byte sequence. -/
def utf8Decode (bytes : List Nat) : List Char :=
  let s := bytes.foldl utf8Feed { out := [], acc := 0, need := 0 }
  if s.need = 0 then s.out else s.out ++ [Char.ofNat 65533]

/-- A text codec chosen by the `encoding` argument: bytes to text. -/
abbrev Encoding := List Nat → String

/-- The default `encoding = "UTF-8"`. -/
def utf8 : Encoding := fun bytes => String.mk (utf8Decode bytes)

/-- The text split into lines at the line terminators: the pieces between
line feeds, each without a carriage return at its end (so `\n` and `\r\n`
terminate a line, and a carriage return that ends the text is dropped). -/
def textLines (cs : List Char) : List (List Char) :=
  (cs.splitOn '\n').map fun l => if l.getLast? = some '\r' then l.dropLast else l

/-- Model of `QTextStream::readLine` on the decoded text not yet read: the
line up to the next line feed, without its terminator, and the text left. -/
def readLine (text : List Char) : List Char × List Char :=
  let line := text.takeWhile (fun c => c != '\n')
  let rest := (text.dropWhile (fun c => c != '\n')).drop 1
  (if line.getLast? = some '\r' then line.dropLast else line, rest)

/-- The loop `while (!in.atEnd()) result += in.readLine();`, at most `fuel`
rounds. -/
def readLoop : Nat → List Char → List Char → List Char
  | 0, _, result => result
  | fuel + 1, text, result =>
    if text.isEmpty then result
    else readLoop fuel (readLine text).2 (result ++ (readLine text).1)

/-- Model of `HttpClientPrivate::readReply`: the stream decodes the body with
the codec, then the loop runs; every round reads at least one character, so
the length of the text is fuel enough. -/
def readReply (body : List Nat) (encoding : Encoding) : String :=
  let text := (encoding body).data
  String.mk (readLoop text.length text [])

/-- In the spec's words: the body decoded with the encoding, split into
lines, the lines concatenated in order with nothing between them. -/
def decodedLinesJoined (body : List Nat) (encoding : Encoding) : String :=
  String.mk (textLines (encoding body).data).flatten

/-! ## Terminal calls -/

/-- Call a text handler unless it is `NULL`. -/
def callText (h : TextHandler) (arg : String) (w : World) : World :=
  match h with
  | some f => f arg w
  | none => w

/-- The transport method `executeQuery` uses for each HTTP method. -/
def verbOf : HttpMethod → Verb
  | .GET => .get
  | .POST => .post
  | .PUT => .put
  | .DELETE => .deleteResource

/-- The transport of a call: a new manager when none was set, else the
builder's manager. -/
def selectManager (d : HttpClientPrivate) (w : World) : Nat × World :=
  match d.manager with
  | none => w.newManager
  | some m => (m, w)

/-- The `finished` slot of `executeQuery` and of `upload`. -/
def queryFinished (reply manager : Nat) (internal : Bool) (multiPart : Option Nat)
    (successHandler : TextHandler) (encoding : Encoding) (r : ReplyState) (w : World) : World :=
  let w1 :=
    if r.error.isNone && successHandler.isSome then
      callText successHandler (readReply r.unread encoding) w
    else w
  let w2 := match multiPart with
    | some mp => w1.emit (.deleteLater (.multiPart mp))
    | none => w1
  let w3 := w2.emit (.deleteLater (.reply reply))
  if internal then w3.emit (.deleteLater (.manager manager)) else w3

/-- The `error` slot shared by all terminal calls. -/
def errorSlot (errorHandler : TextHandler) (r : ReplyState) (w : World) : World :=
  match errorHandler with
  | some f => f (r.error.getD "") w
  | none => w

/-- Model of `HttpClientPrivate::executeQuery`. Returns the private state after the
call, the world, and the slots connected to the reply. -/
def executeQuery (method : HttpMethod) (d : HttpClientPrivate)
    (successHandler errorHandler : TextHandler) (encoding : Encoding) (w : World) :
    HttpClientPrivate × World × Connections :=
  let internal := d.manager.isNone
  let (request, d1, dbg) := createRequest method d
  let w1 := w.debugLines dbg
  let (manager, w2) := selectManager d1 w1
  let body : Body := match requestBody method d1 with
    | some b => .bytes b
    | none => .none
  let (reply, w3) := w2.send manager (verbOf method) request body
  (d1, w3,
    { reply := reply
      onReadyRead := none
      onFinished := queryFinished reply manager internal none successHandler encoding
      onError := errorSlot errorHandler })

/-- Model of `HttpClient::get`. -/
def get (d : HttpClientPrivate) (successHandler errorHandler : TextHandler)
    (encoding : Encoding) (w : World) : HttpClientPrivate × World × Connections :=
  executeQuery .GET d successHandler errorHandler encoding w

/-- Model of `HttpClient::post`. -/
def post (d : HttpClientPrivate) (successHandler errorHandler : TextHandler)
    (encoding : Encoding) (w : World) : HttpClientPrivate × World × Connections :=
  executeQuery .POST d successHandler errorHandler encoding w

/-- Model of `HttpClient::put`. -/
def put (d : HttpClientPrivate) (successHandler errorHandler : TextHandler)
    (encoding : Encoding) (w : World) : HttpClientPrivate × World × Connections :=
  executeQuery .PUT d successHandler errorHandler encoding w

/-- Model of `HttpClient::remove`. -/
def remove (d : HttpClientPrivate) (successHandler errorHandler : TextHandler)
    (encoding : Encoding) (w : World) : HttpClientPrivate × World × Connections :=
  executeQuery .DELETE d successHandler errorHandler encoding w

/-- The `finished` slot of `download`. -/
def downloadFinished (reply manager : Nat) (internal : Bool) (finishHandler : VoidHandler)
    (r : ReplyState) (w : World) : World :=
  let w1 := match finishHandler with
    | some f => if r.error.isNone then f w else w
    | none => w
  let w2 := w1.emit (.deleteLater (.reply reply))
  if internal then w2.emit (.deleteLater (.manager manager)) else w2

/-- Model of `HttpClient::download(readyRead, finishHandler, errorHandler)`. -/
def download (d : HttpClientPrivate) (readyRead : DataHandler) (finishHandler : VoidHandler)
    (errorHandler : TextHandler) (w : World) : HttpClientPrivate × World × Connections :=
  let internal := d.manager.isNone
  let (request, d1, dbg) := createRequest .GET d
  let w1 := w.debugLines dbg
  let (manager, w2) := selectManager d1 w1
  let (reply, w3) := w2.send manager .get request .none
  (d1, w3,
    { reply := reply
      onReadyRead := some readyRead
      onFinished := downloadFinished reply manager internal finishHandler
      onError := errorSlot errorHandler })

/-- The finish lambda of the file overload: release the file, then run the
caller's `finishHandler`. -/
def fileFinished (destinationPath : String) (debug : Bool) (finishHandler : VoidHandler)
    (w : World) : World :=
  let w1 := ((w.emit (.fileFlush destinationPath)).emit (.fileClose destinationPath)).emit
    (.deleteLater (.file destinationPath))
  let w2 := if debug then w1.debugLines ["下载完成，保存到: " ++ destinationPath] else w1
  match finishHandler with
  | some f => f w2
  | none => w2

/-- Model of `HttpClient::download(destinationPath, finishHandler, errorHandler)`. -/
def downloadTo (d : HttpClientPrivate) (destinationPath : String) (finishHandler : VoidHandler)
    (errorHandler : TextHandler) (w : World) : HttpClientPrivate × World × Option Connections :=
  let debug := d.debug
  if w.fs.writable destinationPath then
    let r := download d (fun data w => w.fileWrite destinationPath data)
      (some (fileFinished destinationPath debug finishHandler)) errorHandler
      (w.openTruncate destinationPath)
    (r.1, r.2.1, some r.2.2)
  else
    let w1 := if debug then w.debugLines ["打开文件出错: " ++ destinationPath] else w
    (d, callText errorHandler ("打开文件出错: " ++ destinationPath) w1, none)

/-- Model of `new QHttpMultiPart(...)`: a fresh object identity. -/
def World.newMultiPart (w : World) : Nat × World :=
  (w.nextId, { w with nextId := w.nextId + 1 })

/-- Model of `HttpClient::upload`. `QFile::fileName` is the name the file object was
constructed with, that is `path`. -/
def upload (d : HttpClientPrivate) (path : String) (successHandler errorHandler : TextHandler)
    (encoding : Encoding) (w : World) : HttpClientPrivate × World × Option Connections :=
  let (multiPart, w0) := w.newMultiPart
  if !w0.fs.readable path && errorHandler.isSome then
    let w1 := callText errorHandler ("文件打开失败: " ++ w0.fs.errorString path) w0
    (d, w1.emit (.deleteLater (.multiPart multiPart)), none)
  else
    let disposition := "form-data; name=\"file\"; filename=\"" ++ path ++ "\""
    let internal := d.manager.isNone
    let (request, d1, dbg) := createRequest .GET d
    let w1 := w0.debugLines dbg
    let (manager, w2) := selectManager d1 w1
    let (reply, w3) := w2.send manager .post request (.multiPart multiPart [disposition])
    (d1, w3, some
      { reply := reply
        onReadyRead := none
        onFinished := queryFinished reply manager internal (some multiPart) successHandler encoding
        onError := errorSlot errorHandler })

/-! ## Observations on the effect log -/

/-- The transfer a `send` effect started: transport, method, request, body. -/
def Event.sent? : Event → Option (Nat × Verb × QNetworkRequest × Body)
  | .send m v r b _ => some (m, v, r, b)
  | _ => none

/-- All transfers started so far, in order. -/
def sent (evs : List Event) : List (Nat × Verb × QNetworkRequest × Body) :=
  evs.filterMap Event.sent?

/-- The parameters a chain of configuration calls adds, in order. -/
def paramsOf (cs : List Config) : List (String × String) :=
  cs.filterMap fun c => match c with
    | .param n v => some (n, v)
    | _ => none

/-- The caller's `successHandler`, observed: it records its argument. -/
def logSuccess : String → World → World := fun response w => w.emit (.success response)

/-- The caller's `errorHandler`, observed. -/
def logError : String → World → World := fun message w => w.emit (.error message)

/-- The caller's `finishHandler`, observed. -/
def logFinish : World → World := fun w => w.emit .finish

/-- The caller's `readyRead` sink, observed. -/
def logChunk : DataHandler := fun data w => w.emit (.chunk data)

/-- A handler argument: the observed handler when supplied, `NULL` otherwise. -/
def supplied {α : Type} (given : Bool) (h : α) : Option α :=
  if given then some h else none

/-- The terminal calls of the fluent interface. -/
inductive TerminalCall
  | get | post | put | remove
  | download
  | downloadTo (destinationPath : String)
  | upload (path : String)
  deriving DecidableEq, Repr

/-- Run a terminal call with observed handlers; `hasOk` and `hasErr` say
whether the success (or finish) handler and the error handler are supplied.
The last component holds the reply's connections when a transfer started. -/
def TerminalCall.run (c : TerminalCall) (d : HttpClientPrivate) (hasOk hasErr : Bool)
    (enc : Encoding) (w : World) : HttpClientPrivate × World × Option Connections :=
  match c with
  | .get =>
    let r := HttpClient.get d (supplied hasOk logSuccess) (supplied hasErr logError) enc w
    (r.1, r.2.1, some r.2.2)
  | .post =>
    let r := HttpClient.post d (supplied hasOk logSuccess) (supplied hasErr logError) enc w
    (r.1, r.2.1, some r.2.2)
  | .put =>
    let r := HttpClient.put d (supplied hasOk logSuccess) (supplied hasErr logError) enc w
    (r.1, r.2.1, some r.2.2)
  | .remove =>
    let r := HttpClient.remove d (supplied hasOk logSuccess) (supplied hasErr logError) enc w
    (r.1, r.2.1, some r.2.2)
  | .download =>
    let r := HttpClient.download d logChunk (supplied hasOk logFinish) (supplied hasErr logError) w
    (r.1, r.2.1, some r.2.2)
  | .downloadTo path =>
    HttpClient.downloadTo d path (supplied hasOk logFinish) (supplied hasErr logError) w
  | .upload path =>
    HttpClient.upload d path (supplied hasOk logSuccess) (supplied hasErr logError) enc w

/-- Invocations of `successHandler` or `finishHandler`. -/
def Event.isOk : Event → Bool
  | .success _ => true
  | .finish => true
  | _ => false

/-- Invocations of `errorHandler`. -/
def Event.isError : Event → Bool
  | .error _ => true
  | _ => false

/-- Managers created so far. -/
def created (evs : List Event) : List Nat :=
  evs.filterMap fun e => match e with
    | .newManager m => some m
    | _ => none

/-- Managers released (`deleteLater`) so far. -/
def released (evs : List Event) : List Nat :=
  evs.filterMap fun e => match e with
    | .deleteLater (.manager m) => some m
    | _ => none

/-- Flush and close effects on a file, in order. -/
def closes (path : String) (evs : List Event) : List Event :=
  evs.filter fun e => e = .fileFlush path || e = .fileClose path

/-- The transport a call uses: the builder's manager, or the fresh one. -/
def transportOf (d : HttpClientPrivate) (w : World) : Nat :=
  d.manager.getD w.nextId

/-- A world with nothing in it, for concrete evaluations. -/
def World.empty : World :=
  { nextId := 0, events := [],
    fs := { readable := fun _ => false, writable := fun _ => false,
            errorString := fun _ => "No such file or directory", content := fun _ => [] } }

/-- The bytes handed to the caller's `readyRead` sink so far, concatenated. -/
def sinkBytes (evs : List Event) : List Nat :=
  (evs.filterMap fun e => match e with
    | .chunk data => some data
    | _ => none).flatten

/-- Invocations of the caller's `finishHandler`. -/
def finishes (evs : List Event) : Nat :=
  evs.countP fun e => e = .finish

/-- A world in which every path can be opened, for concrete evaluations. -/
def World.permissive : World :=
  { nextId := 0, events := [],
    fs := { readable := fun _ => true, writable := fun _ => true,
            errorString := fun _ => "", content := fun _ => [] } }

/-- A connection whose completion neither creates nor releases a manager nor
starts a transfer. -/
def Quiet (t : Connections) : Prop :=
  ∀ o w, created (t.complete o w).events = created w.events
    ∧ released (t.complete o w).events = released w.events
    ∧ sent (t.complete o w).events = sent w.events

/-- The loop of `main.cpp`: `n` GET calls from fresh builders that share the
external manager `m`; returns the world and the connections of the
transfers, in call order. -/
def sharedGets (url : String) (m : Nat) (hasOk hasErr : Bool) (enc : Encoding) :
    Nat → World → World × List Connections
  | 0, w => (w, [])
  | n + 1, w =>
    let p := sharedGets url m hasOk hasErr enc n w
    let r := get ((HttpClientPrivate.new url).setManager (some m))
      (supplied hasOk logSuccess) (supplied hasErr logError) enc p.1
    (r.2.1, p.2 ++ [r.2.2])

/-- Complete transfers one after the other, each with its outcome. -/
def completeAll (jobs : List (Connections × Outcome)) (w : World) : World :=
  jobs.foldl (fun w j => j.1.complete j.2 w) w

/-- The responses handed to `successHandler` so far, in order. -/
def delivered (evs : List Event) : List String :=
  evs.filterMap fun e => match e with
    | .success response => some response
    | _ => none

/-- The part headers of the multipart bodies sent so far. -/
def dispositions (evs : List Event) : List (List String) :=
  evs.filterMap fun e => match e with
    | .send _ _ _ (.multiPart _ ds) _ => some ds
    | _ => none

/-- In the spec's words: the base name of a path, its last component without
any directory. -/
def baseName (path : String) : String :=
  String.mk ((path.data.splitOn '/').getLast?.getD [])

/-- Two header names that differ at most in letter case. -/
def sameNameIgnoringCase (a b : String) : Bool :=
  a.data.map Char.toLower == b.data.map Char.toLower

/-- The entries of a hash whose key is exactly `key`. -/
def QHash.entriesOf (h : QHash) (key : String) : List (String × String) :=
  h.filter fun e => e.1 = key

/-- Whether a terminal call starts a transfer. A download to a file starts
one when the file opens for writing; an upload stops before dispatch only
when its file fails to open and an `errorHandler` was supplied; every other
call starts one. -/
def TerminalCall.starts (c : TerminalCall) (fs : FileSystem) (hasErr : Bool) : Bool :=
  match c with
  | .downloadTo path => fs.writable path
  | .upload path => fs.readable path || !hasErr
  | _ => true

/-- Terminal calls made one after the other, each on its own builder with
the external manager `m` set; returns the world and the connections of the
transfers started, in call order. -/
def sharedCalls (m : Nat) (hasOk hasErr : Bool) (enc : Encoding) :
    List (TerminalCall × HttpClientPrivate) → World → World × List Connections
  | [], w => (w, [])
  | cd :: rest, w =>
    let r := cd.1.run (cd.2.setManager (some m)) hasOk hasErr enc w
    let p := sharedCalls m hasOk hasErr enc rest r.2.1
    (p.1, r.2.2.toList ++ p.2)

/-! ## Lemmas on the builder -/

theorem configure_url (d : HttpClientPrivate) (cs : List Config) :
    (configure d cs).url = d.url := by
  induction cs generalizing d with
  | nil => rfl
  | cons c cs ih =>
    rw [configure, List.foldl_cons, ← configure, ih]
    cases c <;> rfl

theorem configure_params (d : HttpClientPrivate) (cs : List Config) :
    (configure d cs).params = d.params ++ paramsOf cs := by
  induction cs generalizing d with
  | nil => simp [configure, paramsOf]
  | cons c cs ih =>
    rw [configure, List.foldl_cons, ← configure, ih]
    cases c <;>
      simp [Config.apply, paramsOf, HttpClientPrivate.param, HttpClientPrivate.setJson,
        HttpClientPrivate.header, HttpClientPrivate.setManager, HttpClientPrivate.setDebug,
        QUrlQuery.addQueryItem]

theorem configure_json (d : HttpClientPrivate) (cs : List Config)
    (h : ∀ c ∈ cs, c.isJson = false) :
    (configure d cs).useJson = d.useJson ∧ (configure d cs).json = d.json := by
  induction cs generalizing d with
  | nil => exact ⟨rfl, rfl⟩
  | cons c cs ih =>
    rw [configure, List.foldl_cons, ← configure]
    have hc := h c (List.mem_cons_self _ _)
    have ht := ih (Config.apply d c) (fun x hx => h x (List.mem_cons_of_mem _ hx))
    rw [ht.1, ht.2]
    cases c <;> first | exact ⟨rfl, rfl⟩ | simp [Config.isJson] at hc

theorem QHash.value_insert_self (h : QHash) (k v : String) :
    (h.insert k v).value k = some v := by
  simp [QHash.insert, QHash.value, List.lookup]

theorem QHash.value_filter_ne (h : QHash) (k k2 : String) (hne : k2 ≠ k) :
    QHash.value (h.filter (fun e => e.1 ≠ k)) k2 = QHash.value h k2 := by
  induction h with
  | nil => rfl
  | cons e t ih =>
    obtain ⟨a, b⟩ := e
    by_cases ha : a = k
    · subst ha
      have h1 : (k2 == a) = false := by simpa using hne
      simp [List.filter, QHash.value, List.lookup, h1] at ih ⊢
      exact ih
    · by_cases h2 : k2 = a
      · subst h2
        simp [List.filter, QHash.value, List.lookup, ha]
      · have h1 : (k2 == a) = false := by simpa using h2
        simp [List.filter, QHash.value, List.lookup, ha, h1] at ih ⊢
        exact ih

theorem QHash.value_insert_ne (h : QHash) (k v k2 : String) (hne : k2 ≠ k) :
    (h.insert k v).value k2 = h.value k2 := by
  have h1 : (k2 == k) = false := by simpa using hne
  have := QHash.value_filter_ne h k k2 hne
  simp [QHash.insert, QHash.value, List.lookup, h1] at this ⊢
  exact this

/-! ## Lemmas on dispatch -/

theorem sent_append (a b : List Event) : sent (a ++ b) = sent a ++ sent b := by
  simp [sent, List.filterMap_append]

theorem sent_debug (lines : List String) : sent (lines.map Event.debug) = [] := by
  induction lines with
  | nil => rfl
  | cons l ls ih => simp [sent, List.filterMap_cons, Event.sent?] at ih ⊢

theorem createRequest_manager (m : HttpMethod) (d : HttpClientPrivate) :
    (createRequest m d).2.1.manager = d.manager := by
  unfold createRequest
  simp only
  split_ifs <;> rfl

/-- What `executeQuery` sends: one transfer, on the call's transport, with the
request of `createRequest` and the method's body. -/
theorem executeQuery_sent (m : HttpMethod) (d : HttpClientPrivate)
    (sh eh : TextHandler) (enc : Encoding) (w : World) :
    sent (executeQuery m d sh eh enc w).2.1.events =
      sent w.events ++ [(transportOf d w, verbOf m, (createRequest m d).1,
        match requestBody m (createRequest m d).2.1 with
        | some b => Body.bytes b
        | none => Body.none)] := by
  have hm := createRequest_manager m d
  cases hd : d.manager with
  | none =>
    rw [hd] at hm
    simp [executeQuery, selectManager, hm, World.newManager, World.send, World.debugLines,
      sent_append, sent_debug, transportOf, hd]
    simp [sent, Event.sent?]
  | some x =>
    rw [hd] at hm
    simp [executeQuery, selectManager, hm, World.send, World.debugLines,
      sent_append, sent_debug, transportOf, hd]
    simp [sent, Event.sent?]

theorem createRequest_get_url (d : HttpClientPrivate) (h : d.params ≠ []) :
    (createRequest .GET d).1.url = d.url ++ "?" ++ d.params.toStringEncoded := by
  have h1 : d.params.isEmpty = false := by
    cases hp : d.params with
    | nil => exact absurd hp h
    | cons a t => rfl
  simp [createRequest, h1, String.append_assoc]

theorem createRequest_nonget_url (m : HttpMethod) (d : HttpClientPrivate) (h : m ≠ .GET) :
    (createRequest m d).1.url = d.url := by
  unfold createRequest
  cases hj : d.useJson <;> simp [h, hj]

theorem createRequest_nonget_headers (m : HttpMethod) (d : HttpClientPrivate) (h : m ≠ .GET) :
    (createRequest m d).1.rawHeaders =
      if d.useJson then
        (d.headers.insert "Accept" "application/json; charset=utf-8").insert
          "Content-Type" "application/json"
      else d.headers.insert "Content-Type" "application/x-www-form-urlencoded" := by
  unfold createRequest
  cases hj : d.useJson <;> simp [h, hj]

theorem createRequest_state (m : HttpMethod) (d : HttpClientPrivate) :
    (createRequest m d).2.1.params = d.params ∧ (createRequest m d).2.1.json = d.json
      ∧ (createRequest m d).2.1.useJson = d.useJson := by
  unfold createRequest
  simp only
  split_ifs <;> exact ⟨rfl, rfl, rfl⟩

/-! ## Claims on request construction -/

/-- C1. A GET terminal call on a builder with base URL `u` whose chain of
configuration calls added the parameters `paramsOf cs` (at least one)
dispatches exactly one transfer, with method GET, no body, and the URL
`u ? k1=v1 & ... & kn=vn` with every name and value percent-encoded, in
append order. For the parameters a="1", b="2 3" the URL is `u?a=1&b=2%203`. -/
theorem get_dispatches_url_with_encoded_query (u : String) (cs : List Config)
    (sh eh : TextHandler) (enc : Encoding) (w : World) (h : paramsOf cs ≠ []) :
    (∃ hs, sent (get (configure (HttpClientPrivate.new u) cs) sh eh enc w).2.1.events =
      sent w.events ++
        [(transportOf (configure (HttpClientPrivate.new u) cs) w, Verb.get,
          { url := u ++ "?" ++ "&".intercalate ((paramsOf cs).map encodePair), rawHeaders := hs },
          Body.none)])
    ∧ (paramsOf cs = [("a", "1"), ("b", "2 3")] →
        (createRequest .GET (configure (HttpClientPrivate.new u) cs)).1.url
          = u ++ "?" ++ "a=1&b=2%203") := by
  have hp : (configure (HttpClientPrivate.new u) cs).params = paramsOf cs := by
    rw [configure_params]; rfl
  have hu : (configure (HttpClientPrivate.new u) cs).url = u := by
    rw [configure_url]; rfl
  have hurl := createRequest_get_url (configure (HttpClientPrivate.new u) cs) (by rw [hp]; exact h)
  rw [hp, hu] at hurl
  refine ⟨⟨(createRequest .GET (configure (HttpClientPrivate.new u) cs)).1.rawHeaders, ?_⟩, ?_⟩
  · rw [get, executeQuery_sent]
    simp only [requestBody, verbOf]
    rw [← QUrlQuery.toStringEncoded, ← hurl]
  · intro hab
    rw [hurl, hab]
    have : QUrlQuery.toStringEncoded [("a", "1"), ("b", "2 3")] = "a=1&b=2%203" := by decide
    rw [this]

/-- Witness for C1: the chain param("a","1"), header, param("b","2 3"). -/
theorem get_dispatches_url_with_encoded_query_witness :
    (createRequest .GET (configure (HttpClientPrivate.new "http://localhost:8080/rest")
        [.param "a" "1", .header "token" "md5sum", .param "b" "2 3"])).1.url
      = "http://localhost:8080/rest" ++ "?" ++ "a=1&b=2%203" :=
  (get_dispatches_url_with_encoded_query "http://localhost:8080/rest"
    [.param "a" "1", .header "token" "md5sum", .param "b" "2 3"] none none utf8
    World.empty
    (by decide)).2 (by decide)

/-- C2, as stated, fails: with the parameter a="1" on `http://h/r`, the
DELETE call dispatches `http://h/r`, not `http://h/r?a=1` as GET does. -/
theorem remove_does_not_append_query :
    sent (remove (configure (HttpClientPrivate.new "http://h/r") [.param "a" "1"])
        none none utf8 World.empty).2.1.events
      = [(0, Verb.deleteResource,
          { url := "http://h/r",
            rawHeaders := [("Content-Type", "application/x-www-form-urlencoded")] }, Body.none)]
    ∧ sent (get (configure (HttpClientPrivate.new "http://h/r") [.param "a" "1"])
        none none utf8 World.empty).2.1.events
      = [(0, Verb.get, { url := "http://h/r?a=1", rawHeaders := [] }, Body.none)] := by
  constructor <;> decide

/-- C2, amended. A DELETE terminal call dispatches exactly one transfer with
the builder's URL unchanged (the parameters are not appended, whatever they
are: only GET appends them) and with no body. -/
theorem remove_dispatches_url_unchanged_without_body (d : HttpClientPrivate)
    (sh eh : TextHandler) (enc : Encoding) (w : World) :
    ∃ hs, sent (remove d sh eh enc w).2.1.events =
      sent w.events ++
        [(transportOf d w, Verb.deleteResource, { url := d.url, rawHeaders := hs }, Body.none)] := by
  refine ⟨(createRequest .DELETE d).1.rawHeaders, ?_⟩
  rw [remove, executeQuery_sent]
  simp only [requestBody, verbOf]
  rw [← createRequest_nonget_url .DELETE d (by decide)]

/-- C3. After `json(text)`, followed by any configuration calls other than
`json`, a POST or PUT terminal call dispatches one transfer whose body is the
UTF-8 bytes of `text`, and whose request carries `Content-Type:
application/json` and `Accept: application/json; charset=utf-8`. -/
theorem post_put_json_body_and_headers (d0 : HttpClientPrivate) (text : String)
    (cs : List Config) (m : HttpMethod) (sh eh : TextHandler) (enc : Encoding) (w : World)
    (hcs : ∀ c ∈ cs, c.isJson = false) (hm : m = .POST ∨ m = .PUT) :
    ∃ req, sent (executeQuery m (configure (d0.setJson text) cs) sh eh enc w).2.1.events =
        sent w.events ++
          [(transportOf (configure (d0.setJson text) cs) w, verbOf m, req,
            Body.bytes (toUtf8 text))]
      ∧ QHash.value req.rawHeaders "Content-Type" = some "application/json"
      ∧ QHash.value req.rawHeaders "Accept" = some "application/json; charset=utf-8"
      ∧ ("Content-Type", "application/json") ∈ req.rawHeaders
      ∧ ("Accept", "application/json; charset=utf-8") ∈ req.rawHeaders := by
  obtain ⟨hj, ht⟩ := configure_json (d0.setJson text) cs hcs
  have hj2 : (configure (d0.setJson text) cs).useJson = true := hj
  have ht2 : (configure (d0.setJson text) cs).json = text := ht
  have hne : m ≠ .GET := by rcases hm with h | h <;> simp [h]
  obtain ⟨_, hsj, hsu⟩ := createRequest_state m (configure (d0.setJson text) cs)
  refine ⟨(createRequest m (configure (d0.setJson text) cs)).1, ?_, ?_, ?_, ?_, ?_⟩
  · rw [executeQuery_sent]
    rcases hm with h | h <;> subst h <;> simp [requestBody, hsu, hj2, hsj, ht2]
  · rw [createRequest_nonget_headers m _ hne, hj2]
    exact QHash.value_insert_self _ _ _
  · rw [createRequest_nonget_headers m _ hne, hj2]
    simp only [if_true]
    rw [QHash.value_insert_ne _ _ _ _ (by decide)]
    exact QHash.value_insert_self _ _ _
  · rw [createRequest_nonget_headers m _ hne, hj2]
    simp [QHash.insert]
  · rw [createRequest_nonget_headers m _ hne, hj2]
    simp [QHash.insert]

/-- Witness for C3: the PUT call of `main.cpp`, with a parameter added too. -/
theorem post_put_json_body_and_headers_witness :
    ∃ req, sent (executeQuery .PUT (configure ((HttpClientPrivate.new "http://h/r").setJson
          "\x7b\"name\": 1\x7d") [.param "a" "1"]) none none utf8 World.empty).2.1.events =
        sent World.empty.events ++
          [(transportOf (configure ((HttpClientPrivate.new "http://h/r").setJson
              "\x7b\"name\": 1\x7d") [.param "a" "1"]) World.empty, verbOf .PUT, req,
            Body.bytes (toUtf8 "\x7b\"name\": 1\x7d"))]
      ∧ QHash.value req.rawHeaders "Content-Type" = some "application/json"
      ∧ QHash.value req.rawHeaders "Accept" = some "application/json; charset=utf-8"
      ∧ ("Content-Type", "application/json") ∈ req.rawHeaders
      ∧ ("Accept", "application/json; charset=utf-8") ∈ req.rawHeaders :=
  post_put_json_body_and_headers (HttpClientPrivate.new "http://h/r") "\x7b\"name\": 1\x7d"
    [.param "a" "1"] .PUT none none utf8 World.empty (by decide) (Or.inr rfl)

/-- C4. On a builder on which `json` was never called, a POST or PUT
terminal call dispatches one transfer whose body is the UTF-8 bytes of the
percent-encoded `name=value` pairs joined by `&` in append order, whose URL
is the builder's URL with nothing appended, and whose request carries
`Content-Type: application/x-www-form-urlencoded`. -/
theorem post_put_form_body_url_and_content_type (u : String) (cs : List Config)
    (m : HttpMethod) (sh eh : TextHandler) (enc : Encoding) (w : World)
    (hcs : ∀ c ∈ cs, c.isJson = false) (hm : m = .POST ∨ m = .PUT) :
    ∃ hs, sent (executeQuery m (configure (HttpClientPrivate.new u) cs) sh eh enc w).2.1.events =
        sent w.events ++
          [(transportOf (configure (HttpClientPrivate.new u) cs) w, verbOf m,
            { url := u, rawHeaders := hs },
            Body.bytes (toUtf8 ("&".intercalate ((paramsOf cs).map encodePair))))]
      ∧ QHash.value hs "Content-Type" = some "application/x-www-form-urlencoded"
      ∧ ("Content-Type", "application/x-www-form-urlencoded") ∈ hs := by
  obtain ⟨hj, _⟩ := configure_json (HttpClientPrivate.new u) cs hcs
  have hj2 : (configure (HttpClientPrivate.new u) cs).useJson = false := hj
  have hp : (configure (HttpClientPrivate.new u) cs).params = paramsOf cs := by
    rw [configure_params]; rfl
  have hu : (configure (HttpClientPrivate.new u) cs).url = u := by
    rw [configure_url]; rfl
  have hne : m ≠ .GET := by rcases hm with h | h <;> simp [h]
  obtain ⟨hsp, _, hsu⟩ := createRequest_state m (configure (HttpClientPrivate.new u) cs)
  have hurl := createRequest_nonget_url m (configure (HttpClientPrivate.new u) cs) hne
  rw [hu] at hurl
  refine ⟨(createRequest m (configure (HttpClientPrivate.new u) cs)).1.rawHeaders, ?_, ?_, ?_⟩
  · have hreq : (createRequest m (configure (HttpClientPrivate.new u) cs)).1 =
        { url := u,
          rawHeaders := (createRequest m (configure (HttpClientPrivate.new u) cs)).1.rawHeaders } := by
      cases hq : (createRequest m (configure (HttpClientPrivate.new u) cs)).1 with
      | mk a b => rw [hq] at hurl; simp at hurl; rw [hurl]
    rw [executeQuery_sent, ← hreq]
    rcases hm with h | h <;> subst h <;>
      simp [requestBody, hsu, hj2, hsp, hp, QUrlQuery.toStringEncoded]
  · rw [createRequest_nonget_headers m _ hne, hj2]
    exact QHash.value_insert_self _ _ _
  · rw [createRequest_nonget_headers m _ hne, hj2]
    simp [QHash.insert]

/-- Witness for C4: the POST call of `main.cpp`. -/
theorem post_put_form_body_url_and_content_type_witness :
    ∃ hs, sent (executeQuery .POST (configure (HttpClientPrivate.new "http://h/r")
          [.debug true, .param "name" "卧龙"]) none none utf8 World.empty).2.1.events =
        sent World.empty.events ++
          [(transportOf (configure (HttpClientPrivate.new "http://h/r")
              [.debug true, .param "name" "卧龙"]) World.empty, verbOf .POST,
            { url := "http://h/r", rawHeaders := hs },
            Body.bytes (toUtf8 ("&".intercalate
              ((paramsOf [.debug true, .param "name" "卧龙"]).map encodePair))))]
      ∧ QHash.value hs "Content-Type" = some "application/x-www-form-urlencoded"
      ∧ ("Content-Type", "application/x-www-form-urlencoded") ∈ hs :=
  post_put_form_body_url_and_content_type "http://h/r" [.debug true, .param "name" "卧龙"]
    .POST none none utf8 World.empty (by decide) (Or.inl rfl)

/-- C5, as stated, fails: after `header("Content-Type", "text/plain")` a POST
carries the default `application/x-www-form-urlencoded`, and after `json` and
`header("Accept", "text/html")` a PUT carries the default Accept; the
caller's values are gone from the request. -/
theorem caller_content_type_is_overwritten :
    (createRequest .POST
        ((HttpClientPrivate.new "http://h/r").header "Content-Type" "text/plain")).1.rawHeaders
      = [("Content-Type", "application/x-www-form-urlencoded")]
    ∧ (createRequest .PUT
        (((HttpClientPrivate.new "http://h/r").setJson "\x7b\x7d").header "Accept" "text/html")).1.rawHeaders
      = [("Content-Type", "application/json"), ("Accept", "application/json; charset=utf-8")] := by
  constructor <;> decide

/-- C5, amended. For every builder state and every method other than GET the
method's defaults win: the request's `Content-Type` is `application/json`
after `json`, else `application/x-www-form-urlencoded`, and after `json` its
`Accept` is `application/json; charset=utf-8`, whatever the caller set. The
caller's `Accept` is carried when `json` was not called, and every header
with another name is carried with the caller's value. -/
theorem method_defaults_override_caller_headers (d : HttpClientPrivate) (m : HttpMethod)
    (hm : m ≠ .GET) :
    QHash.value (createRequest m d).1.rawHeaders "Content-Type"
        = some (if d.useJson then "application/json" else "application/x-www-form-urlencoded")
    ∧ (d.useJson = true →
        QHash.value (createRequest m d).1.rawHeaders "Accept"
          = some "application/json; charset=utf-8")
    ∧ (d.useJson = false →
        QHash.value (createRequest m d).1.rawHeaders "Accept" = QHash.value d.headers "Accept")
    ∧ (∀ name, name ≠ "Content-Type" → name ≠ "Accept" →
        QHash.value (createRequest m d).1.rawHeaders name = QHash.value d.headers name) := by
  rw [createRequest_nonget_headers m d hm]
  cases hj : d.useJson
  · refine ⟨?_, ?_, ?_, ?_⟩
    · exact QHash.value_insert_self _ _ _
    · intro h; cases h
    · intro _
      exact QHash.value_insert_ne _ _ _ _ (by decide)
    · intro name h1 _
      exact QHash.value_insert_ne _ _ _ _ h1
  · refine ⟨?_, ?_, ?_, ?_⟩
    · exact QHash.value_insert_self _ _ _
    · intro _
      simp only [if_true]
      rw [QHash.value_insert_ne _ _ _ _ (by decide)]
      exact QHash.value_insert_self _ _ _
    · intro h; cases h
    · intro name h1 h2
      simp only [if_true]
      rw [QHash.value_insert_ne _ _ _ _ h1, QHash.value_insert_ne _ _ _ _ h2]

/-- Witness for C5 amended: a POST after two caller headers. -/
theorem method_defaults_override_caller_headers_witness :
    QHash.value (createRequest .POST (((HttpClientPrivate.new "http://h/r").header
        "Content-Type" "text/plain").header "token" "md5sum")).1.rawHeaders "token"
      = QHash.value (((HttpClientPrivate.new "http://h/r").header
        "Content-Type" "text/plain").header "token" "md5sum").headers "token" :=
  (method_defaults_override_caller_headers (((HttpClientPrivate.new "http://h/r").header
      "Content-Type" "text/plain").header "token" "md5sum") .POST (by decide)).2.2.2
    "token" (by decide) (by decide)

/-! ## Lemmas on signal delivery -/

theorem foldl_deliver_none (t : Connections) (h : t.onReadyRead = none)
    (cs : List (List Nat)) (w : World) (buf : List Nat) :
    cs.foldl (deliverChunk t) (w, buf) = (w, buf ++ cs.flatten) := by
  induction cs generalizing buf with
  | nil => simp
  | cons c cs ih => simp [List.foldl_cons, deliverChunk, h, ih]

theorem foldl_deliver_some (t : Connections) (slot : DataHandler) (h : t.onReadyRead = some slot)
    (cs : List (List Nat)) (w : World) :
    cs.foldl (deliverChunk t) (w, []) = (cs.foldl (fun w c => slot c w) w, []) := by
  induction cs generalizing w with
  | nil => simp
  | cons c cs ih => simp [List.foldl_cons, deliverChunk, h, ih]

theorem foldl_logChunk (cs : List (List Nat)) (w : World) :
    cs.foldl (fun w c => logChunk c w) w
      = { w with events := w.events ++ cs.map Event.chunk } := by
  induction cs generalizing w with
  | nil => simp
  | cons c cs ih => rw [List.foldl_cons, ih]; simp [logChunk, World.emit]

theorem foldl_fileWrite (path : String) (cs : List (List Nat)) (w : World) :
    cs.foldl (fun w c => w.fileWrite path c) w
      = { w with
          events := w.events ++ cs.map (Event.fileWrite path)
          fs := { w.fs with
            content := Function.update w.fs.content path (w.fs.content path ++ cs.flatten) } } := by
  induction cs generalizing w with
  | nil => simp
  | cons c cs ih => rw [List.foldl_cons, ih]; simp [World.fileWrite]

theorem countP_debug (p : Event → Bool) (hp : ∀ l, p (.debug l) = false) (lines : List String) :
    (lines.map Event.debug).countP p = 0 := by
  induction lines with
  | nil => rfl
  | cons l ls ih => simp [List.countP_cons, hp, ih]

theorem countP_chunk (p : Event → Bool) (hp : ∀ c, p (.chunk c) = false) (cs : List (List Nat)) :
    (cs.map Event.chunk).countP p = 0 := by
  induction cs with
  | nil => rfl
  | cons l ls ih => simp [List.countP_cons, hp, ih]

theorem countP_fileWrite (p : Event → Bool) (path : String)
    (hp : ∀ c, p (.fileWrite path c) = false) (cs : List (List Nat)) :
    (cs.map (Event.fileWrite path)).countP p = 0 := by
  induction cs with
  | nil => rfl
  | cons l ls ih => simp [List.countP_cons, hp, ih]

theorem foldl_deliver_mk_none (reply : Nat) (fin err : ReplyState → World → World)
    (cs : List (List Nat)) (w : World) (buf : List Nat) :
    cs.foldl (deliverChunk ⟨reply, none, fin, err⟩) (w, buf) = (w, buf ++ cs.flatten) :=
  foldl_deliver_none _ rfl cs w buf

theorem foldl_deliver_mk_some (reply : Nat) (slot : DataHandler)
    (fin err : ReplyState → World → World) (cs : List (List Nat)) (w : World) :
    cs.foldl (deliverChunk ⟨reply, some slot, fin, err⟩) (w, [])
      = (cs.foldl (fun w c => slot c w) w, []) :=
  foldl_deliver_some _ slot rfl cs w

/-! ## Claims on completion, transports and files -/

/-- C6. For every terminal call (get, post, put, remove, both download
overloads, upload) made with both completion handlers supplied, and for every
way the transfer ends (any chunks, with or without a transport error), the
call adds exactly one invocation of a terminal callback: one of
`successHandler`/`finishHandler` and none of `errorHandler` when a transfer
started and ended without a transport error, and one of `errorHandler` and
none of the other otherwise. -/
theorem exactly_one_terminal_callback (c : TerminalCall) (d : HttpClientPrivate) (enc : Encoding) (w : World)
    (o : Outcome) :
    ((completeOpt (c.run d true true enc w).2.2 o (c.run d true true enc w).2.1).events.countP
        Event.isOk,
      (completeOpt (c.run d true true enc w).2.2 o (c.run d true true enc w).2.1).events.countP
        Event.isError)
      = if (c.run d true true enc w).2.2.isSome && o.error.isNone
        then (w.events.countP Event.isOk + 1, w.events.countP Event.isError)
        else (w.events.countP Event.isOk, w.events.countP Event.isError + 1) := by
  have hdbg1 := countP_debug Event.isOk (fun _ => rfl)
  have hdbg2 := countP_debug Event.isError (fun _ => rfl)
  have hc1 := countP_chunk Event.isOk (fun _ => rfl)
  have hc2 := countP_chunk Event.isError (fun _ => rfl)
  cases c
  case downloadTo path =>
    have hf1 := countP_fileWrite Event.isOk path (fun _ => rfl)
    have hf2 := countP_fileWrite Event.isError path (fun _ => rfl)
    cases hm : d.manager <;> cases he : o.error <;> cases hw : w.fs.writable path <;>
      cases hd : d.debug <;>
      simp [TerminalCall.run, downloadTo, download, completeOpt, Connections.complete,
        foldl_deliver_mk_some, foldl_fileWrite, selectManager, createRequest_manager, hm, he, hw,
        hd, World.newManager, World.send, World.debugLines, downloadFinished, fileFinished,
        errorSlot, supplied, callText, logFinish, logError, World.emit, World.openTruncate,
        List.countP_append, List.countP_cons, Event.isOk, Event.isError, hdbg1, hdbg2, hf1, hf2]
  case upload path =>
    cases hm : d.manager <;> cases he : o.error <;> cases hw : w.fs.readable path <;>
      simp [TerminalCall.run, upload, completeOpt, Connections.complete,
        foldl_deliver_mk_none, selectManager, createRequest_manager, hm, he, hw,
        World.newManager, World.send, World.debugLines, World.newMultiPart, queryFinished,
        errorSlot, supplied, callText, logSuccess, logError, World.emit,
        List.countP_append, List.countP_cons, Event.isOk, Event.isError, hdbg1, hdbg2]
  case download =>
    cases hm : d.manager <;> cases he : o.error <;>
      simp [TerminalCall.run, download, completeOpt, Connections.complete,
        foldl_deliver_mk_some, foldl_logChunk, selectManager, createRequest_manager, hm, he,
        World.newManager, World.send, World.debugLines, downloadFinished,
        errorSlot, supplied, callText, logFinish, logError, World.emit,
        List.countP_append, List.countP_cons, Event.isOk, Event.isError, hdbg1, hdbg2, hc1, hc2]
  all_goals
    cases hm : d.manager <;> cases he : o.error <;>
      simp [TerminalCall.run, get, post, put, remove, executeQuery, completeOpt,
        Connections.complete,
        foldl_deliver_none, selectManager, createRequest_manager, hm, he, World.newManager,
        World.send, World.debugLines, queryFinished, errorSlot, supplied, callText, logSuccess,
        logError, World.emit, List.countP_append, List.countP_cons, Event.isOk, Event.isError,
        hdbg1, hdbg2]
theorem created_append (a b : List Event) : created (a ++ b) = created a ++ created b := by
  simp [created, List.filterMap_append]

theorem released_append (a b : List Event) : released (a ++ b) = released a ++ released b := by
  simp [released, List.filterMap_append]

theorem created_debug (lines : List String) : created (lines.map Event.debug) = [] := by
  induction lines with
  | nil => rfl
  | cons l ls ih => simp [created, List.filterMap_cons] at ih ⊢

theorem released_debug (lines : List String) : released (lines.map Event.debug) = [] := by
  induction lines with
  | nil => rfl
  | cons l ls ih => simp [released, List.filterMap_cons] at ih ⊢

theorem get_external_quiet (d : HttpClientPrivate) (x : Nat) (hd : d.manager = some x)
    (hasOk hasErr : Bool) (enc : Encoding) (w : World) :
    Quiet (get d (supplied hasOk logSuccess) (supplied hasErr logError) enc w).2.2 := by
  intro o w2
  cases he : o.error <;> cases hasOk <;> cases hasErr <;>
    simp [get, executeQuery, Connections.complete, foldl_deliver_mk_none, selectManager,
      createRequest_manager, hd, he, World.send, World.debugLines, queryFinished, errorSlot,
      supplied, callText, logSuccess, logError, World.emit, created_append, released_append,
      sent_append] <;>
    simp [created, released, sent, Event.sent?]
theorem completeAll_quiet (jobs : List (Connections × Outcome)) (w : World)
    (h : ∀ j ∈ jobs, Quiet j.1) :
    created (completeAll jobs w).events = created w.events
      ∧ released (completeAll jobs w).events = released w.events
      ∧ sent (completeAll jobs w).events = sent w.events := by
  induction jobs generalizing w with
  | nil => exact ⟨rfl, rfl, rfl⟩
  | cons j js ih =>
    have hj := h j (List.mem_cons_self _ _) j.2 w
    have ht := ih (j.1.complete j.2 w) (fun x hx => h x (List.mem_cons_of_mem _ hx))
    rw [completeAll, List.foldl_cons, ← completeAll]
    exact ⟨ht.1.trans hj.1, ht.2.1.trans hj.2.1, ht.2.2.trans hj.2.2⟩

theorem sharedGets_spec (url : String) (m : Nat) (hasOk hasErr : Bool) (enc : Encoding)
    (n : Nat) (w : World) :
    (sharedGets url m hasOk hasErr enc n w).2.length = n
      ∧ created (sharedGets url m hasOk hasErr enc n w).1.events = created w.events
      ∧ released (sharedGets url m hasOk hasErr enc n w).1.events = released w.events
      ∧ (sent (sharedGets url m hasOk hasErr enc n w).1.events).map (fun s => s.1)
          = (sent w.events).map (fun s => s.1) ++ List.replicate n m
      ∧ ∀ t ∈ (sharedGets url m hasOk hasErr enc n w).2, Quiet t := by
  induction n with
  | zero => simp [sharedGets]
  | succ n ih =>
    obtain ⟨h1, h2, h3, h4, h5⟩ := ih
    have hs := executeQuery_sent .GET ((HttpClientPrivate.new url).setManager (some m))
      (supplied hasOk logSuccess) (supplied hasErr logError) enc
      (sharedGets url m hasOk hasErr enc n w).1
    refine ⟨by simp [sharedGets, h1], ?_, ?_, ?_, ?_⟩
    · rw [← h2]
      simp [sharedGets, get, executeQuery, selectManager, createRequest_manager,
        HttpClientPrivate.setManager, World.send, World.debugLines, created_append,
        created_debug]
      simp [created]
    · rw [← h3]
      simp [sharedGets, get, executeQuery, selectManager, createRequest_manager,
        HttpClientPrivate.setManager, World.send, World.debugLines, released_append,
        released_debug]
      simp [released]
    · simp only [sharedGets, get]
      rw [hs, List.map_append, h4, List.replicate_succ', ← List.append_assoc]
      rfl
    · intro t ht
      simp only [sharedGets, List.mem_append, List.mem_singleton] at ht
      rcases ht with ht | ht
      · exact h5 t ht
      · rw [ht]
        exact get_external_quiet _ m rfl hasOk hasErr enc _

set_option maxHeartbeats 4000000 in
theorem terminalCall_transport (c : TerminalCall) (d : HttpClientPrivate) (hasOk hasErr : Bool)
    (enc : Encoding) (w : World) (o : Outcome) (t : Connections)
    (ht : (c.run d hasOk hasErr enc w).2.2 = some t) :
    (d.manager = none → ∃ m,
        created (c.run d hasOk hasErr enc w).2.1.events = created w.events ++ [m]
        ∧ (sent (c.run d hasOk hasErr enc w).2.1.events).map (fun s => s.1)
            = (sent w.events).map (fun s => s.1) ++ [m]
        ∧ released (c.run d hasOk hasErr enc w).2.1.events = released w.events
        ∧ created (t.complete o (c.run d hasOk hasErr enc w).2.1).events
            = created w.events ++ [m]
        ∧ released (t.complete o (c.run d hasOk hasErr enc w).2.1).events
            = released w.events ++ [m]
        ∧ sent (t.complete o (c.run d hasOk hasErr enc w).2.1).events
            = sent (c.run d hasOk hasErr enc w).2.1.events)
    ∧ (∀ x, d.manager = some x →
        created (t.complete o (c.run d hasOk hasErr enc w).2.1).events = created w.events
        ∧ released (t.complete o (c.run d hasOk hasErr enc w).2.1).events = released w.events
        ∧ (sent (t.complete o (c.run d hasOk hasErr enc w).2.1).events).map (fun s => s.1)
            = (sent w.events).map (fun s => s.1) ++ [x]) := by
  have e1 : ∀ cs : List (List Nat), created (cs.map Event.chunk) = [] := by
    intro cs; induction cs with
    | nil => rfl
    | cons l ls ih => simp [created, List.filterMap_cons] at ih ⊢
  have e2 : ∀ cs : List (List Nat), released (cs.map Event.chunk) = [] := by
    intro cs; induction cs with
    | nil => rfl
    | cons l ls ih => simp [released, List.filterMap_cons] at ih ⊢
  have e3 : ∀ cs : List (List Nat), sent (cs.map Event.chunk) = [] := by
    intro cs; induction cs with
    | nil => rfl
    | cons l ls ih => simp [sent, List.filterMap_cons, Event.sent?] at ih ⊢
  have f1 : ∀ (p : String) (cs : List (List Nat)), created (cs.map (Event.fileWrite p)) = [] := by
    intro p cs; induction cs with
    | nil => rfl
    | cons l ls ih => simp [created, List.filterMap_cons] at ih ⊢
  have f2 : ∀ (p : String) (cs : List (List Nat)), released (cs.map (Event.fileWrite p)) = [] := by
    intro p cs; induction cs with
    | nil => rfl
    | cons l ls ih => simp [released, List.filterMap_cons] at ih ⊢
  have f3 : ∀ (p : String) (cs : List (List Nat)), sent (cs.map (Event.fileWrite p)) = [] := by
    intro p cs; induction cs with
    | nil => rfl
    | cons l ls ih => simp [sent, List.filterMap_cons, Event.sent?] at ih ⊢
  cases c
  case downloadTo path =>
    cases hw : w.fs.writable path
    · simp [TerminalCall.run, downloadTo, hw] at ht
    · simp [TerminalCall.run, downloadTo, hw] at ht
      subst ht
      constructor
      · intro hm
        refine ⟨w.nextId, ?_⟩
        cases he : o.error <;> cases hasOk <;> cases hasErr <;> cases hd : d.debug <;>
          simp [TerminalCall.run, downloadTo, download, Connections.complete,
            foldl_deliver_mk_some, foldl_fileWrite, selectManager, createRequest_manager, hm, he,
            hw, hd, World.newManager, World.send, World.debugLines, downloadFinished,
            fileFinished, errorSlot, supplied, callText, logFinish, logError, World.emit,
            World.openTruncate, created_append, released_append, sent_append, created_debug,
            released_debug, sent_debug, f1, f2, f3] <;>
          simp [created, released, sent, Event.sent?]
      · intro x hm
        cases he : o.error <;> cases hasOk <;> cases hasErr <;> cases hd : d.debug <;>
          simp [TerminalCall.run, downloadTo, download, Connections.complete,
            foldl_deliver_mk_some, foldl_fileWrite, selectManager, createRequest_manager, hm, he,
            hw, hd, World.send, World.debugLines, downloadFinished,
            fileFinished, errorSlot, supplied, callText, logFinish, logError, World.emit,
            World.openTruncate, created_append, released_append, sent_append, created_debug,
            released_debug, sent_debug, f1, f2, f3] <;>
          simp [created, released, sent, Event.sent?]
  case upload path =>
    cases hr : w.fs.readable path <;> cases hasErr <;>
      simp [TerminalCall.run, upload, hr, supplied, World.newMultiPart] at ht
    all_goals
      subst ht
      constructor
      · intro hm
        refine ⟨w.nextId + 1, ?_⟩
        cases he : o.error <;> cases hasOk <;>
          simp [TerminalCall.run, upload, Connections.complete,
            foldl_deliver_mk_none, selectManager, createRequest_manager, hm, he, hr,
            World.newManager, World.send, World.debugLines, World.newMultiPart, queryFinished,
            errorSlot, supplied, callText, logSuccess, logError, World.emit,
            created_append, released_append, sent_append, created_debug,
            released_debug, sent_debug] <;>
          simp [created, released, sent, Event.sent?]
      · intro x hm
        cases he : o.error <;> cases hasOk <;>
          simp [TerminalCall.run, upload, Connections.complete,
            foldl_deliver_mk_none, selectManager, createRequest_manager, hm, he, hr,
            World.send, World.debugLines, World.newMultiPart, queryFinished,
            errorSlot, supplied, callText, logSuccess, logError, World.emit,
            created_append, released_append, sent_append, created_debug,
            released_debug, sent_debug] <;>
          simp [created, released, sent, Event.sent?]
  case download =>
    simp [TerminalCall.run] at ht
    subst ht
    constructor
    · intro hm
      refine ⟨w.nextId, ?_⟩
      cases he : o.error <;> cases hasOk <;> cases hasErr <;>
        simp [TerminalCall.run, download, Connections.complete,
          foldl_deliver_mk_some, foldl_logChunk, selectManager, createRequest_manager, hm, he,
          World.newManager, World.send, World.debugLines, downloadFinished,
          errorSlot, supplied, callText, logFinish, logError, World.emit,
          created_append, released_append, sent_append, created_debug,
          released_debug, sent_debug, e1, e2, e3] <;>
        simp [created, released, sent, Event.sent?]
    · intro x hm
      cases he : o.error <;> cases hasOk <;> cases hasErr <;>
        simp [TerminalCall.run, download, Connections.complete,
          foldl_deliver_mk_some, foldl_logChunk, selectManager, createRequest_manager, hm, he,
          World.send, World.debugLines, downloadFinished,
          errorSlot, supplied, callText, logFinish, logError, World.emit,
          created_append, released_append, sent_append, created_debug,
          released_debug, sent_debug, e1, e2, e3] <;>
        simp [created, released, sent, Event.sent?]
  all_goals
    simp [TerminalCall.run] at ht
    subst ht
    constructor
    · intro hm
      refine ⟨w.nextId, ?_⟩
      cases he : o.error <;> cases hasOk <;> cases hasErr <;>
        simp [TerminalCall.run, get, post, put, remove, executeQuery, Connections.complete,
          foldl_deliver_mk_none, selectManager, createRequest_manager, hm, he,
          World.newManager, World.send, World.debugLines, queryFinished,
          errorSlot, supplied, callText, logSuccess, logError, World.emit,
          created_append, released_append, sent_append, created_debug,
          released_debug, sent_debug] <;>
        simp [created, released, sent, Event.sent?]
    · intro x hm
      cases he : o.error <;> cases hasOk <;> cases hasErr <;>
        simp [TerminalCall.run, get, post, put, remove, executeQuery, Connections.complete,
          foldl_deliver_mk_none, selectManager, createRequest_manager, hm, he,
          World.send, World.debugLines, queryFinished,
          errorSlot, supplied, callText, logSuccess, logError, World.emit,
          created_append, released_append, sent_append, created_debug,
          released_debug, sent_debug] <;>
        simp [created, released, sent, Event.sent?]

theorem run_isSome (c : TerminalCall) (d : HttpClientPrivate) (hasOk hasErr : Bool)
    (enc : Encoding) (w : World) :
    (c.run d hasOk hasErr enc w).2.2.isSome = c.starts w.fs hasErr := by
  cases c
  case downloadTo path =>
    cases hw : w.fs.writable path <;> simp [TerminalCall.run, TerminalCall.starts, downloadTo, hw]
  case upload path =>
    cases hr : w.fs.readable path <;> cases hasErr <;>
      simp [TerminalCall.run, TerminalCall.starts, upload, World.newMultiPart, supplied, hr]
  all_goals simp [TerminalCall.run, TerminalCall.starts]

theorem run_fs (c : TerminalCall) (d : HttpClientPrivate) (hasOk hasErr : Bool)
    (enc : Encoding) (w : World) :
    (c.run d hasOk hasErr enc w).2.1.fs.readable = w.fs.readable
      ∧ (c.run d hasOk hasErr enc w).2.1.fs.writable = w.fs.writable := by
  cases c
  case downloadTo path =>
    cases hm : d.manager <;> cases hw : w.fs.writable path <;> cases hd : d.debug <;>
      cases hasErr <;>
      simp [TerminalCall.run, downloadTo, download, selectManager, createRequest_manager, hm, hw,
        hd, World.newManager, World.send, World.debugLines, World.openTruncate, supplied,
        callText, logError, World.emit]
  case upload path =>
    cases hm : d.manager <;> cases hr : w.fs.readable path <;> cases hasErr <;>
      simp [TerminalCall.run, upload, selectManager, createRequest_manager, hm, hr,
        World.newManager, World.send, World.debugLines, World.newMultiPart, supplied,
        callText, logError, World.emit]
  case download =>
    cases hm : d.manager <;>
      simp [TerminalCall.run, download, selectManager, createRequest_manager, hm,
        World.newManager, World.send, World.debugLines]
  all_goals
    cases hm : d.manager <;>
      simp [TerminalCall.run, get, post, put, remove, executeQuery, selectManager,
        createRequest_manager, hm, World.newManager, World.send, World.debugLines]

theorem starts_congr (c : TerminalCall) (fs1 fs2 : FileSystem) (hasErr : Bool)
    (hr : fs1.readable = fs2.readable) (hw : fs1.writable = fs2.writable) :
    c.starts fs1 hasErr = c.starts fs2 hasErr := by
  cases c <;> simp [TerminalCall.starts, hr, hw]

theorem run_not_started (c : TerminalCall) (d : HttpClientPrivate) (hasOk hasErr : Bool)
    (enc : Encoding) (w : World) (h : c.starts w.fs hasErr = false) :
    created (c.run d hasOk hasErr enc w).2.1.events = created w.events
      ∧ released (c.run d hasOk hasErr enc w).2.1.events = released w.events
      ∧ sent (c.run d hasOk hasErr enc w).2.1.events = sent w.events := by
  cases c
  case downloadTo path =>
    have hw : w.fs.writable path = false := h
    cases hd : d.debug <;> cases hasErr <;>
      simp [TerminalCall.run, downloadTo, hw, hd, World.debugLines, supplied, callText, logError,
        World.emit, created_append, released_append, sent_append, created_debug,
        released_debug, sent_debug] <;>
      simp [created, released, sent, Event.sent?]
  case upload path =>
    cases hr : w.fs.readable path <;> cases hasErr <;>
      simp [TerminalCall.starts, hr] at h
    simp [TerminalCall.run, upload, hr, World.newMultiPart, supplied, callText, logError,
        World.emit, created_append, released_append, sent_append]
    simp [created, released, sent, Event.sent?]
  all_goals simp [TerminalCall.starts] at h

theorem created_fileWrite (p : String) (cs : List (List Nat)) :
    created (cs.map (Event.fileWrite p)) = [] := by
  induction cs with
  | nil => rfl
  | cons l ls ih => simp [created, List.filterMap_cons] at ih ⊢

theorem released_fileWrite (p : String) (cs : List (List Nat)) :
    released (cs.map (Event.fileWrite p)) = [] := by
  induction cs with
  | nil => rfl
  | cons l ls ih => simp [released, List.filterMap_cons] at ih ⊢

theorem sent_fileWrite (p : String) (cs : List (List Nat)) :
    sent (cs.map (Event.fileWrite p)) = [] := by
  induction cs with
  | nil => rfl
  | cons l ls ih => simp [sent, List.filterMap_cons, Event.sent?] at ih ⊢

theorem created_chunk (cs : List (List Nat)) : created (cs.map Event.chunk) = [] := by
  induction cs with
  | nil => rfl
  | cons l ls ih => simp [created, List.filterMap_cons] at ih ⊢

theorem released_chunk (cs : List (List Nat)) : released (cs.map Event.chunk) = [] := by
  induction cs with
  | nil => rfl
  | cons l ls ih => simp [released, List.filterMap_cons] at ih ⊢

theorem sent_chunk (cs : List (List Nat)) : sent (cs.map Event.chunk) = [] := by
  induction cs with
  | nil => rfl
  | cons l ls ih => simp [sent, List.filterMap_cons, Event.sent?] at ih ⊢

set_option maxHeartbeats 4000000 in
theorem run_external_quiet (c : TerminalCall) (d : HttpClientPrivate) (x : Nat)
    (hd : d.manager = some x) (hasOk hasErr : Bool) (enc : Encoding) (w : World)
    (t : Connections) (ht : (c.run d hasOk hasErr enc w).2.2 = some t) : Quiet t := by
  intro o w2
  cases c
  case downloadTo path =>
    cases hw : w.fs.writable path
    · simp [TerminalCall.run, downloadTo, hw] at ht
    · simp [TerminalCall.run, downloadTo, hw] at ht
      subst ht
      cases he : o.error <;> cases hasOk <;> cases hasErr <;> cases hdb : d.debug <;>
        simp [download, Connections.complete, foldl_deliver_mk_some, foldl_fileWrite,
          selectManager, createRequest_manager, hd, he, hdb, World.send, World.debugLines,
          downloadFinished, fileFinished, errorSlot, supplied, callText, logFinish, logError,
          World.emit, World.openTruncate, created_append, released_append, sent_append,
          created_debug, released_debug, sent_debug, created_fileWrite, released_fileWrite,
          sent_fileWrite] <;>
        simp [created, released, sent, Event.sent?]
  case upload path =>
    cases hr : w.fs.readable path <;> cases hasErr <;>
      simp [TerminalCall.run, upload, hr, supplied, World.newMultiPart] at ht
    all_goals
      subst ht
      cases he : o.error <;> cases hasOk <;>
        simp [Connections.complete, foldl_deliver_mk_none, selectManager,
          createRequest_manager, hd, he, World.send, World.debugLines, queryFinished,
          errorSlot, supplied, callText, logSuccess, logError, World.emit, created_append,
          released_append, sent_append] <;>
        simp [created, released, sent, Event.sent?]
  case download =>
    simp [TerminalCall.run] at ht
    subst ht
    cases he : o.error <;> cases hasOk <;> cases hasErr <;>
      simp [download, Connections.complete, foldl_deliver_mk_some, foldl_logChunk,
        selectManager, createRequest_manager, hd, he, World.send, World.debugLines,
        downloadFinished, errorSlot, supplied, callText, logFinish, logError, World.emit,
        created_append, released_append, sent_append, created_chunk, released_chunk,
        sent_chunk] <;>
      simp [created, released, sent, Event.sent?]
  all_goals
    simp [TerminalCall.run] at ht
    subst ht
    cases he : o.error <;> cases hasOk <;> cases hasErr <;>
      simp [get, post, put, remove, executeQuery, Connections.complete, foldl_deliver_mk_none,
        selectManager, createRequest_manager, hd, he, World.send, World.debugLines,
        queryFinished, errorSlot, supplied, callText, logSuccess, logError, World.emit,
        created_append, released_append, sent_append] <;>
      simp [created, released, sent, Event.sent?]

theorem run_external_dispatch (c : TerminalCall) (d : HttpClientPrivate) (x : Nat)
    (hd : d.manager = some x) (hasOk hasErr : Bool) (enc : Encoding) (w : World) :
    created (c.run d hasOk hasErr enc w).2.1.events = created w.events
      ∧ released (c.run d hasOk hasErr enc w).2.1.events = released w.events
      ∧ (sent (c.run d hasOk hasErr enc w).2.1.events).map (fun s => s.1)
          = (sent w.events).map (fun s => s.1)
            ++ List.replicate (c.run d hasOk hasErr enc w).2.2.toList.length x := by
  cases c
  case downloadTo path =>
    cases hw : w.fs.writable path <;> cases hasErr <;> cases hdb : d.debug <;>
      simp [TerminalCall.run, downloadTo, download, selectManager, createRequest_manager, hd,
        hw, hdb, World.send, World.debugLines, World.openTruncate, supplied, callText, logError,
        World.emit, created_append, released_append, sent_append, created_debug,
        released_debug, sent_debug] <;>
      simp [created, released, sent, Event.sent?]
  case upload path =>
    cases hr : w.fs.readable path <;> cases hasErr <;>
      simp [TerminalCall.run, upload, selectManager, createRequest_manager, hd, hr,
        World.send, World.debugLines, World.newMultiPart, supplied, callText, logError,
        World.emit, created_append, released_append, sent_append, created_debug,
        released_debug, sent_debug] <;>
      simp [created, released, sent, Event.sent?]
  case download =>
    simp [TerminalCall.run, download, selectManager, createRequest_manager, hd,
      World.send, World.debugLines, created_append, released_append, sent_append,
      created_debug, released_debug, sent_debug]
    simp [created, released, sent, Event.sent?]
  all_goals
    simp [TerminalCall.run, get, post, put, remove, executeQuery, selectManager,
      createRequest_manager, hd, World.send, World.debugLines, created_append,
      released_append, sent_append, created_debug, released_debug, sent_debug]
    simp [created, released, sent, Event.sent?]

theorem toList_length_of_isSome (t : Option Connections) :
    t.toList.length = if t.isSome then 1 else 0 := by
  cases t <;> rfl

theorem sharedCalls_spec (m : Nat) (hasOk hasErr : Bool) (enc : Encoding)
    (calls : List (TerminalCall × HttpClientPrivate)) (w : World) :
    (sharedCalls m hasOk hasErr enc calls w).2.length
        = (calls.filter fun cd => cd.1.starts w.fs hasErr).length
      ∧ created (sharedCalls m hasOk hasErr enc calls w).1.events = created w.events
      ∧ released (sharedCalls m hasOk hasErr enc calls w).1.events = released w.events
      ∧ (sent (sharedCalls m hasOk hasErr enc calls w).1.events).map (fun s => s.1)
          = (sent w.events).map (fun s => s.1)
            ++ List.replicate (sharedCalls m hasOk hasErr enc calls w).2.length m
      ∧ ∀ t ∈ (sharedCalls m hasOk hasErr enc calls w).2, Quiet t := by
  induction calls generalizing w with
  | nil => simp [sharedCalls]
  | cons cd rest ih =>
    obtain ⟨c, d⟩ := cd
    have hd : (d.setManager (some m)).manager = some m := rfl
    obtain ⟨e1, e2, e3⟩ := run_external_dispatch c (d.setManager (some m)) m hd hasOk hasErr enc w
    obtain ⟨f1, f2⟩ := run_fs c (d.setManager (some m)) hasOk hasErr enc w
    obtain ⟨h1, h2, h3, h4, h5⟩ := ih (c.run (d.setManager (some m)) hasOk hasErr enc w).2.1
    have hfilter : (rest.filter fun cd =>
          cd.1.starts (c.run (d.setManager (some m)) hasOk hasErr enc w).2.1.fs hasErr)
        = rest.filter fun cd => cd.1.starts w.fs hasErr := by
      apply List.filter_congr
      intro cd _
      exact starts_congr cd.1 _ _ hasErr f1 f2
    refine ⟨?_, ?_, ?_, ?_, ?_⟩
    · simp only [sharedCalls, List.length_append, h1, hfilter, toList_length_of_isSome,
        run_isSome, List.filter_cons]
      cases hs : c.starts w.fs hasErr <;> simp [hs]
      omega
    · simp only [sharedCalls]
      rw [h2, e1]
    · simp only [sharedCalls]
      rw [h3, e2]
    · simp only [sharedCalls]
      rw [h4, e3, List.length_append, List.replicate_add, List.append_assoc]
    · intro t ht
      simp only [sharedCalls, List.mem_append] at ht
      rcases ht with ht | ht
      · have hsome : (c.run (d.setManager (some m)) hasOk hasErr enc w).2.2 = some t := by
          cases hq : (c.run (d.setManager (some m)) hasOk hasErr enc w).2.2 with
          | none => rw [hq] at ht; simp at ht
          | some q =>
            rw [hq] at ht
            simp at ht
            rw [ht]
        exact run_external_quiet c _ m hd hasOk hasErr enc w t hsome
      · exact h5 t ht

/-- C7, as stated, fails: with no external manager set, a download to a file
that cannot be opened for writing, and an upload of a file that cannot be
opened with an `errorHandler` supplied, create no manager at all; they
start no transfer and only call `errorHandler`. -/
theorem no_transport_when_file_fails_to_open :
    (HttpClientPrivate.new "http://h/dog.png").manager = none
    ∧ (TerminalCall.run (.downloadTo "dog.png") (HttpClientPrivate.new "http://h/dog.png")
        true true utf8 World.empty).2.1.events = [Event.error "打开文件出错: dog.png"]
    ∧ created (TerminalCall.run (.downloadTo "dog.png") (HttpClientPrivate.new "http://h/dog.png")
        true true utf8 World.empty).2.1.events = []
    ∧ (TerminalCall.run (.downloadTo "dog.png") (HttpClientPrivate.new "http://h/dog.png")
        true true utf8 World.empty).2.2.isSome = false
    ∧ created (TerminalCall.run (.upload "ade.jpg") (HttpClientPrivate.new "http://h/up")
        true true utf8 World.empty).2.1.events = []
    ∧ (TerminalCall.run (.upload "ade.jpg") (HttpClientPrivate.new "http://h/up")
        true true utf8 World.empty).2.2.isSome = false := by
  refine ⟨rfl, ?_, ?_, ?_, ?_, ?_⟩ <;> decide

/-- C7, amended. A terminal call starts a transfer unless it is a download to
a file that does not open, or an upload of a file that does not open with an
`errorHandler` supplied; a call that starts none creates no manager, releases
none and sends nothing. For every call that starts a transfer, however the
transfer ends: when no external manager was set, the call creates exactly one
new manager, the transfer runs on it, it is not released at dispatch and is
released exactly once when the transfer finishes; when an external manager
was set, no manager is created, none is released, and the transfer runs on
the external one. Any terminal calls sharing one external manager start one
transfer each (those that start one), all on that manager, and create and
release nothing, in whatever order and with whatever outcomes the transfers
complete; so do the `n` GET calls of the loop of `main.cpp`. -/
theorem transport_created_once_and_released_once (c : TerminalCall) (d : HttpClientPrivate)
    (hasOk hasErr : Bool) (enc : Encoding) (w : World) (o : Outcome)
    (url : String) (m n : Nat) (calls : List (TerminalCall × HttpClientPrivate)) :
    (c.run d hasOk hasErr enc w).2.2.isSome = c.starts w.fs hasErr
    ∧ (c.starts w.fs hasErr = false →
        created (c.run d hasOk hasErr enc w).2.1.events = created w.events
        ∧ released (c.run d hasOk hasErr enc w).2.1.events = released w.events
        ∧ sent (c.run d hasOk hasErr enc w).2.1.events = sent w.events)
    ∧ (∀ t, (c.run d hasOk hasErr enc w).2.2 = some t → d.manager = none → ∃ k,
        created (c.run d hasOk hasErr enc w).2.1.events = created w.events ++ [k]
        ∧ (sent (c.run d hasOk hasErr enc w).2.1.events).map (fun s => s.1)
            = (sent w.events).map (fun s => s.1) ++ [k]
        ∧ released (c.run d hasOk hasErr enc w).2.1.events = released w.events
        ∧ created (t.complete o (c.run d hasOk hasErr enc w).2.1).events
            = created w.events ++ [k]
        ∧ released (t.complete o (c.run d hasOk hasErr enc w).2.1).events
            = released w.events ++ [k]
        ∧ sent (t.complete o (c.run d hasOk hasErr enc w).2.1).events
            = sent (c.run d hasOk hasErr enc w).2.1.events)
    ∧ (∀ t, (c.run d hasOk hasErr enc w).2.2 = some t → ∀ x, d.manager = some x →
        created (t.complete o (c.run d hasOk hasErr enc w).2.1).events = created w.events
        ∧ released (t.complete o (c.run d hasOk hasErr enc w).2.1).events = released w.events
        ∧ (sent (t.complete o (c.run d hasOk hasErr enc w).2.1).events).map (fun s => s.1)
            = (sent w.events).map (fun s => s.1) ++ [x])
    ∧ ((sharedCalls m hasOk hasErr enc calls w).2.length
          = (calls.filter fun cd => cd.1.starts w.fs hasErr).length
        ∧ (sent (sharedCalls m hasOk hasErr enc calls w).1.events).map (fun s => s.1)
            = (sent w.events).map (fun s => s.1)
              ++ List.replicate (sharedCalls m hasOk hasErr enc calls w).2.length m
        ∧ ∀ jobs : List (Connections × Outcome),
            (∀ j ∈ jobs, j.1 ∈ (sharedCalls m hasOk hasErr enc calls w).2) →
            created (completeAll jobs (sharedCalls m hasOk hasErr enc calls w).1).events
              = created w.events
            ∧ released (completeAll jobs (sharedCalls m hasOk hasErr enc calls w).1).events
              = released w.events
            ∧ sent (completeAll jobs (sharedCalls m hasOk hasErr enc calls w).1).events
              = sent (sharedCalls m hasOk hasErr enc calls w).1.events)
    ∧ ((sharedGets url m hasOk hasErr enc n w).2.length = n
        ∧ (sent (sharedGets url m hasOk hasErr enc n w).1.events).map (fun s => s.1)
            = (sent w.events).map (fun s => s.1) ++ List.replicate n m
        ∧ ∀ jobs : List (Connections × Outcome),
            (∀ j ∈ jobs, j.1 ∈ (sharedGets url m hasOk hasErr enc n w).2) →
            created (completeAll jobs (sharedGets url m hasOk hasErr enc n w).1).events
              = created w.events
            ∧ released (completeAll jobs (sharedGets url m hasOk hasErr enc n w).1).events
              = released w.events
            ∧ sent (completeAll jobs (sharedGets url m hasOk hasErr enc n w).1).events
              = sent (sharedGets url m hasOk hasErr enc n w).1.events) := by
  obtain ⟨h1, h2, h3, h4, h5⟩ := sharedGets_spec url m hasOk hasErr enc n w
  obtain ⟨s1, s2, s3, s4, s5⟩ := sharedCalls_spec m hasOk hasErr enc calls w
  refine ⟨run_isSome c d hasOk hasErr enc w, run_not_started c d hasOk hasErr enc w,
    fun t ht => (terminalCall_transport c d hasOk hasErr enc w o t ht).1,
    fun t ht => (terminalCall_transport c d hasOk hasErr enc w o t ht).2,
    ⟨s1, s4, ?_⟩, ⟨h1, h4, ?_⟩⟩
  · intro jobs hjobs
    obtain ⟨q1, q2, q3⟩ := completeAll_quiet jobs (sharedCalls m hasOk hasErr enc calls w).1
      (fun j hj => s5 j.1 (hjobs j hj))
    exact ⟨q1.trans s2, q2.trans s3, q3⟩
  · intro jobs hjobs
    obtain ⟨q1, q2, q3⟩ := completeAll_quiet jobs (sharedGets url m hasOk hasErr enc n w).1
      (fun j hj => h5 j.1 (hjobs j hj))
    exact ⟨q1.trans h2, q2.trans h3, q3⟩

/-- Witness for C7 amended: a GET, a POST, a download to a file that opens
and an upload of a readable file, on builders sharing the manager 7; four
transfers are started, and after all four have completed no manager has been
created or released. -/
theorem transport_created_once_and_released_once_witness :
    (sharedCalls 7 true true utf8
        [(.get, HttpClientPrivate.new "http://localhost:8080/rest"),
         (.post, (HttpClientPrivate.new "http://localhost:8080/rest").param "a" "1"),
         (.downloadTo "dog.png", HttpClientPrivate.new "http://xtuer.github.io/img/dog.png"),
         (.upload "ade.jpg", HttpClientPrivate.new "http://localhost:8080/webuploader")]
        World.permissive).2.length = 4
    ∧ released (completeAll
        ((sharedCalls 7 true true utf8
          [(.get, HttpClientPrivate.new "http://localhost:8080/rest"),
           (.post, (HttpClientPrivate.new "http://localhost:8080/rest").param "a" "1"),
           (.downloadTo "dog.png", HttpClientPrivate.new "http://xtuer.github.io/img/dog.png"),
           (.upload "ade.jpg", HttpClientPrivate.new "http://localhost:8080/webuploader")]
          World.permissive).2.map fun t => (t, { chunks := [[104, 105]], error := none }))
        (sharedCalls 7 true true utf8
          [(.get, HttpClientPrivate.new "http://localhost:8080/rest"),
           (.post, (HttpClientPrivate.new "http://localhost:8080/rest").param "a" "1"),
           (.downloadTo "dog.png", HttpClientPrivate.new "http://xtuer.github.io/img/dog.png"),
           (.upload "ade.jpg", HttpClientPrivate.new "http://localhost:8080/webuploader")]
          World.permissive).1).events
      = released World.permissive.events :=
  have h := (transport_created_once_and_released_once TerminalCall.get
    (HttpClientPrivate.new "http://localhost:8080/rest") true true utf8 World.permissive
    { chunks := [[104, 105]], error := none } "http://localhost:8080/rest" 7 3
    [(.get, HttpClientPrivate.new "http://localhost:8080/rest"),
     (.post, (HttpClientPrivate.new "http://localhost:8080/rest").param "a" "1"),
     (.downloadTo "dog.png", HttpClientPrivate.new "http://xtuer.github.io/img/dog.png"),
     (.upload "ade.jpg", HttpClientPrivate.new "http://localhost:8080/webuploader")]).2.2.2.2.1
  ⟨h.1.trans (by decide),
    (h.2.2 _ (by
      intro j hj
      simp only [List.mem_map] at hj
      obtain ⟨t, ht, rfl⟩ := hj
      exact ht)).2.1⟩

/-- C8, evaluated at the failing input. With a file that cannot be opened and
no `errorHandler` (the default), `upload` goes on and posts the multipart
request; with an `errorHandler` supplied it reports once and sends nothing. -/
theorem upload_unreadable_without_errorHandler_sends :
    World.empty.fs.readable "/Users/Biao/Pictures/ade.jpg" = false
    ∧ sent (upload (HttpClientPrivate.new "http://localhost:8080/webuploader")
        "/Users/Biao/Pictures/ade.jpg" none none utf8 World.empty).2.1.events
      = [(1, Verb.post, { url := "http://localhost:8080/webuploader", rawHeaders := [] },
          Body.multiPart 0
            ["form-data; name=\"file\"; filename=\"/Users/Biao/Pictures/ade.jpg\""])]
    ∧ sent (upload (HttpClientPrivate.new "http://localhost:8080/webuploader")
        "/Users/Biao/Pictures/ade.jpg" none (some logError) utf8 World.empty).2.1.events = []
    ∧ (upload (HttpClientPrivate.new "http://localhost:8080/webuploader")
        "/Users/Biao/Pictures/ade.jpg" none (some logError) utf8 World.empty).2.1.events
      = [Event.error "文件打开失败: No such file or directory",
         Event.deleteLater (Obj.multiPart 0)] := by
  refine ⟨rfl, ?_, ?_, ?_⟩ <;> decide

/-- C9, evaluated at the failing input. A download to a file that opened, whose
transfer ends with a transport error: the chunks are written, `errorHandler`
runs, and the file is neither flushed nor closed. -/
theorem downloadTo_error_leaves_file_open :
    (completeOpt
        (downloadTo (HttpClientPrivate.new "http://h/dog.png") "dog.png" (some logFinish)
          (some logError) World.permissive).2.2
        { chunks := [[1, 2], [3]], error := some "Connection closed" }
        (downloadTo (HttpClientPrivate.new "http://h/dog.png") "dog.png" (some logFinish)
          (some logError) World.permissive).2.1).events
      = [Event.newManager 0,
         Event.send 0 Verb.get { url := "http://h/dog.png", rawHeaders := [] } Body.none 1,
         Event.fileWrite "dog.png" [1, 2], Event.fileWrite "dog.png" [3],
         Event.error "Connection closed",
         Event.deleteLater (Obj.reply 1), Event.deleteLater (Obj.manager 0)]
    ∧ closes "dog.png" (completeOpt
        (downloadTo (HttpClientPrivate.new "http://h/dog.png") "dog.png" (some logFinish)
          (some logError) World.permissive).2.2
        { chunks := [[1, 2], [3]], error := some "Connection closed" }
        (downloadTo (HttpClientPrivate.new "http://h/dog.png") "dog.png" (some logFinish)
          (some logError) World.permissive).2.1).events = [] := by
  constructor <;> decide

theorem sinkBytes_append (a b : List Event) : sinkBytes (a ++ b) = sinkBytes a ++ sinkBytes b := by
  simp [sinkBytes, List.filterMap_append]

theorem sinkBytes_chunks (cs : List (List Nat)) : sinkBytes (cs.map Event.chunk) = cs.flatten := by
  induction cs with
  | nil => rfl
  | cons c cs ih => simp [sinkBytes, List.filterMap_cons] at ih ⊢; exact ih

theorem finishes_debug (lines : List String) :
    (lines.map Event.debug).countP (fun e => e = .finish) = 0 := by
  induction lines with
  | nil => rfl
  | cons l ls ih => simp [List.countP_cons, ih]

theorem finishes_append (a b : List Event) : finishes (a ++ b) = finishes a + finishes b := by
  simp [finishes, List.countP_append]

theorem finishes_chunks (cs : List (List Nat)) : finishes (cs.map Event.chunk) = 0 := by
  induction cs with
  | nil => rfl
  | cons c cs ih => simp [finishes, List.countP_cons] at ih ⊢

theorem finishes_fileWrite (path : String) (cs : List (List Nat)) :
    finishes (cs.map (Event.fileWrite path)) = 0 := by
  induction cs with
  | nil => rfl
  | cons c cs ih => simp [finishes, List.countP_cons] at ih ⊢

theorem download_dispatch_finishes (d : HttpClientPrivate) (readyRead : DataHandler)
    (fh : VoidHandler) (eh : TextHandler) (w : World) :
    finishes (download d readyRead fh eh w).2.1.events = finishes w.events := by
  cases hm : d.manager <;>
    simp [finishes, download, selectManager, createRequest_manager, hm, World.newManager,
      World.send, World.debugLines, List.countP_append, List.countP_cons, finishes_debug]

/-- C10. A download whose response arrives as the chunks `c1, ..., cn` with no
transport error. With a chunk sink: the sink is called once per chunk, in
order, so the bytes it receives concatenate to `c1 ++ ... ++ cn`, and
`finishHandler` runs exactly once, after the last chunk. With a destination
file that opened: every chunk is written in order, then the file is flushed
and closed, then `finishHandler` runs, exactly once; the file holds exactly
`c1 ++ ... ++ cn`, so its size is the sum of the chunk sizes. -/
theorem download_delivers_chunks_then_finishes_once (d : HttpClientPrivate) (path : String)
    (hasErr : Bool) (w : World) (chunks : List (List Nat)) (hw : w.fs.writable path = true) :
    ((∃ r, ((download d logChunk (some logFinish) (supplied hasErr logError) w).2.2.complete
            { chunks := chunks, error := none }
            (download d logChunk (some logFinish) (supplied hasErr logError) w).2.1).events
          = (download d logChunk (some logFinish) (supplied hasErr logError) w).2.1.events
              ++ chunks.map Event.chunk ++ [Event.finish]
              ++ ([Event.deleteLater (Obj.reply r)]
              ++ (if d.manager.isNone then [Event.deleteLater (Obj.manager w.nextId)] else [])))
      ∧ sinkBytes ((download d logChunk (some logFinish) (supplied hasErr logError)
            w).2.2.complete { chunks := chunks, error := none }
            (download d logChunk (some logFinish) (supplied hasErr logError) w).2.1).events
          = sinkBytes w.events ++ chunks.flatten
      ∧ finishes ((download d logChunk (some logFinish) (supplied hasErr logError)
            w).2.2.complete { chunks := chunks, error := none }
            (download d logChunk (some logFinish) (supplied hasErr logError) w).2.1).events
          = finishes w.events + 1)
    ∧ ((downloadTo d path (some logFinish) (supplied hasErr logError) w).2.2.isSome = true
      ∧ (∃ r, (completeOpt (downloadTo d path (some logFinish) (supplied hasErr logError) w).2.2
            { chunks := chunks, error := none }
            (downloadTo d path (some logFinish) (supplied hasErr logError) w).2.1).events
          = (downloadTo d path (some logFinish) (supplied hasErr logError) w).2.1.events
              ++ chunks.map (Event.fileWrite path)
              ++ [Event.fileFlush path, Event.fileClose path, Event.deleteLater (Obj.file path)]
              ++ (if d.debug then [Event.debug ("下载完成，保存到: " ++ path)] else [])
              ++ [Event.finish]
              ++ ([Event.deleteLater (Obj.reply r)]
              ++ (if d.manager.isNone then [Event.deleteLater (Obj.manager w.nextId)] else [])))
      ∧ finishes (completeOpt (downloadTo d path (some logFinish) (supplied hasErr logError)
            w).2.2 { chunks := chunks, error := none }
            (downloadTo d path (some logFinish) (supplied hasErr logError) w).2.1).events
          = finishes w.events + 1
      ∧ (completeOpt (downloadTo d path (some logFinish) (supplied hasErr logError) w).2.2
            { chunks := chunks, error := none }
            (downloadTo d path (some logFinish) (supplied hasErr logError) w).2.1).fs.content path
          = chunks.flatten
      ∧ ((completeOpt (downloadTo d path (some logFinish) (supplied hasErr logError) w).2.2
            { chunks := chunks, error := none }
            (downloadTo d path (some logFinish) (supplied hasErr logError) w).2.1).fs.content
              path).length = (chunks.map List.length).sum) := by
  constructor
  · have hev : (Connections.complete
          (download d logChunk (some logFinish) (supplied hasErr logError) w).2.2
          { chunks := chunks, error := none }
          (download d logChunk (some logFinish) (supplied hasErr logError) w).2.1).events
        = (download d logChunk (some logFinish) (supplied hasErr logError) w).2.1.events
            ++ chunks.map Event.chunk ++ [Event.finish]
            ++ ([Event.deleteLater (Obj.reply
              (download d logChunk (some logFinish) (supplied hasErr logError) w).2.2.reply)]
            ++ (if d.manager.isNone then [Event.deleteLater (Obj.manager w.nextId)]
                else [])) := by
      cases hm : d.manager <;>
        simp [download, Connections.complete, foldl_deliver_mk_some, foldl_logChunk,
          selectManager, createRequest_manager, hm, World.newManager, World.send,
          World.debugLines, downloadFinished, logFinish, World.emit]
    have hdis : sinkBytes (download d logChunk (some logFinish) (supplied hasErr logError)
        w).2.1.events = sinkBytes w.events := by
      cases hm : d.manager <;>
        simp [sinkBytes, download, selectManager, createRequest_manager, hm, World.newManager,
          World.send, World.debugLines, List.filterMap_append, List.filterMap_map]
    refine ⟨⟨_, hev⟩, ?_, ?_⟩
    · rw [hev, sinkBytes_append, sinkBytes_append, sinkBytes_append, sinkBytes_chunks, hdis]
      cases hm : d.manager <;> simp [sinkBytes]
    · rw [hev, finishes_append, finishes_append, finishes_append, finishes_chunks,
        download_dispatch_finishes]
      cases hm : d.manager <;> simp [finishes, List.countP_cons]
  · have hres : downloadTo d path (some logFinish) (supplied hasErr logError) w
        = ((download d (fun data w => w.fileWrite path data)
              (some (fileFinished path d.debug (some logFinish))) (supplied hasErr logError)
              (w.openTruncate path)).1,
           (download d (fun data w => w.fileWrite path data)
              (some (fileFinished path d.debug (some logFinish))) (supplied hasErr logError)
              (w.openTruncate path)).2.1,
           some (download d (fun data w => w.fileWrite path data)
              (some (fileFinished path d.debug (some logFinish))) (supplied hasErr logError)
              (w.openTruncate path)).2.2) := by
      simp [downloadTo, hw]
    rw [hres]
    simp only [completeOpt, Option.isSome_some, true_and]
    have hev : (Connections.complete
          (download d (fun data w => w.fileWrite path data)
              (some (fileFinished path d.debug (some logFinish))) (supplied hasErr logError)
              (w.openTruncate path)).2.2
          { chunks := chunks, error := none }
          (download d (fun data w => w.fileWrite path data)
              (some (fileFinished path d.debug (some logFinish))) (supplied hasErr logError)
              (w.openTruncate path)).2.1).events
        = (download d (fun data w => w.fileWrite path data)
              (some (fileFinished path d.debug (some logFinish))) (supplied hasErr logError)
              (w.openTruncate path)).2.1.events
            ++ chunks.map (Event.fileWrite path)
            ++ [Event.fileFlush path, Event.fileClose path, Event.deleteLater (Obj.file path)]
            ++ (if d.debug then [Event.debug ("下载完成，保存到: " ++ path)] else [])
            ++ [Event.finish]
            ++ ([Event.deleteLater (Obj.reply
              (download d (fun data w => w.fileWrite path data)
                (some (fileFinished path d.debug (some logFinish))) (supplied hasErr logError)
                (w.openTruncate path)).2.2.reply)]
            ++ (if d.manager.isNone then [Event.deleteLater (Obj.manager w.nextId)]
                else [])) := by
      cases hm : d.manager <;> cases hd : d.debug <;>
        simp [download, Connections.complete, foldl_deliver_mk_some, foldl_fileWrite,
          selectManager, createRequest_manager, hm, hd, World.newManager, World.send,
          World.debugLines, World.openTruncate, downloadFinished, fileFinished, logFinish,
          World.emit]
    refine ⟨⟨_, hev⟩, ?_, ?_, ?_⟩
    · rw [hev]
      simp only [finishes_append, finishes_fileWrite, download_dispatch_finishes]
      cases hm : d.manager <;> cases hd : d.debug <;>
        simp [finishes, List.countP_cons, World.openTruncate]
    · cases hm : d.manager <;> cases hd : d.debug <;>
        simp [download, Connections.complete, foldl_deliver_mk_some, foldl_fileWrite,
          selectManager, createRequest_manager, hm, hd, World.newManager, World.send,
          World.debugLines, World.openTruncate, downloadFinished, fileFinished, logFinish,
          World.emit]
    · cases hm : d.manager <;> cases hd : d.debug <;>
        simp [download, Connections.complete, foldl_deliver_mk_some, foldl_fileWrite,
          selectManager, createRequest_manager, hm, hd, World.newManager, World.send,
          World.debugLines, World.openTruncate, downloadFinished, fileFinished, logFinish,
          World.emit, List.length_flatten]

/-- Witness for C10: three chunks of 3000 bytes written to `dog.png` give a
file of 9000 bytes. -/
theorem download_delivers_chunks_then_finishes_once_witness :
    ((completeOpt (downloadTo (HttpClientPrivate.new "http://xtuer.github.io/img/dog.png")
          "dog.png" (some logFinish) (supplied false logError) World.permissive).2.2
        { chunks := [List.replicate 3000 1, List.replicate 3000 2, List.replicate 3000 3],
          error := none }
        (downloadTo (HttpClientPrivate.new "http://xtuer.github.io/img/dog.png")
          "dog.png" (some logFinish) (supplied false logError) World.permissive).2.1).fs.content
          "dog.png").length = 9000 :=
  (download_delivers_chunks_then_finishes_once
    (HttpClientPrivate.new "http://xtuer.github.io/img/dog.png") "dog.png" false
    World.permissive [List.replicate 3000 1, List.replicate 3000 2, List.replicate 3000 3]
    rfl).2.2.2.2.2.trans
    (by
      rw [List.map_cons, List.map_cons, List.map_cons, List.map_nil, List.sum_cons,
        List.sum_cons, List.sum_cons, List.sum_nil, List.length_replicate,
        List.length_replicate, List.length_replicate]
      norm_num)

/-! ## Lemmas on response decoding -/

theorem splitOnP_lineFeed (text : List Char) :
    text.splitOnP (fun c => c == '\n')
      = text.takeWhile (fun c => c != '\n')
        :: (if text.dropWhile (fun c => c != '\n') = [] then []
            else ((text.dropWhile (fun c => c != '\n')).drop 1).splitOnP (fun c => c == '\n')) := by
  induction text with
  | nil => simp [List.splitOnP_nil]
  | cons x xs ih =>
    rw [List.splitOnP_cons]
    by_cases hx : x = '\n'
    · subst hx
      simp
    · have h1 : (x == '\n') = false := by simpa using hx
      have h2 : (x != '\n') = true := by simpa using hx
      rw [ih]
      simp [h1, h2, List.takeWhile_cons, List.dropWhile_cons, List.modifyHead]

theorem readLine_rest_length (text : List Char) (h : text ≠ []) :
    (readLine text).2.length < text.length := by
  cases text with
  | nil => exact absurd rfl h
  | cons x xs =>
    have h1 := (List.dropWhile_sublist (fun c => c != '\n') (l := x :: xs)).length_le
    simp only [readLine, List.length_drop]
    simp only [List.length_cons] at h1 ⊢
    omega

theorem textLines_flatten (text : List Char) :
    (textLines text).flatten = (readLine text).1 ++ (textLines (readLine text).2).flatten := by
  unfold textLines List.splitOn
  rw [splitOnP_lineFeed text]
  by_cases hd : text.dropWhile (fun c => c != '\n') = []
  · simp [readLine, hd, List.splitOnP_nil]
  · simp [readLine, hd]

theorem readLoop_eq (fuel : Nat) (text result : List Char) (h : text.length ≤ fuel) :
    readLoop fuel text result = result ++ (textLines text).flatten := by
  induction fuel generalizing text result with
  | zero =>
    have ht : text = [] := List.length_eq_zero.mp (Nat.le_zero.mp h)
    subst ht
    simp [readLoop, textLines, List.splitOn, List.splitOnP_nil]
  | succ n ih =>
    by_cases ht : text = []
    · subst ht
      simp [readLoop, textLines, List.splitOn, List.splitOnP_nil]
    · have hlt := readLine_rest_length text ht
      have he : text.isEmpty = false := by
        cases text with
        | nil => exact absurd rfl ht
        | cons a t => rfl
      rw [readLoop, he]
      simp only [Bool.false_eq_true, if_false]
      rw [ih _ _ (by omega), textLines_flatten text, List.append_assoc]

theorem readReply_eq (body : List Nat) (encoding : Encoding) :
    readReply body encoding = decodedLinesJoined body encoding := by
  unfold readReply decodedLinesJoined
  simp only
  rw [readLoop_eq _ _ _ (Nat.le_refl _)]
  simp

theorem lineFeed_not_mem_readLine (text : List Char) : '\n' ∉ (readLine text).1 := by
  have hno : '\n' ∉ text.takeWhile (fun c => c != '\n') := by
    intro hmem
    have := List.mem_takeWhile_imp hmem
    simp at this
  simp only [readLine]
  split_ifs
  · exact fun hc => hno (List.mem_of_mem_dropLast hc)
  · exact hno

theorem lineFeed_not_mem_readLoop (fuel : Nat) (text result : List Char)
    (h : '\n' ∉ result) : '\n' ∉ readLoop fuel text result := by
  induction fuel generalizing text result with
  | zero => simpa [readLoop] using h
  | succ n ih =>
    rw [readLoop]
    split_ifs
    · exact h
    · apply ih
      intro hc
      rcases List.mem_append.mp hc with hc | hc
      · exact h hc
      · exact lineFeed_not_mem_readLine text hc

theorem delivered_append (a b : List Event) : delivered (a ++ b) = delivered a ++ delivered b := by
  simp [delivered, List.filterMap_append]

theorem delivered_debug (lines : List String) : delivered (lines.map Event.debug) = [] := by
  induction lines with
  | nil => rfl
  | cons l ls ih => simp [delivered, List.filterMap_cons] at ih ⊢

theorem executeQuery_delivers (m : HttpMethod) (d : HttpClientPrivate) (hasErr : Bool)
    (enc : Encoding) (w : World) (chunks : List (List Nat)) :
    delivered ((executeQuery m d (some logSuccess) (supplied hasErr logError) enc w).2.2.complete
        { chunks := chunks, error := none }
        (executeQuery m d (some logSuccess) (supplied hasErr logError) enc w).2.1).events
      = delivered w.events ++ [readReply chunks.flatten enc] := by
  cases hm : d.manager <;>
    simp [executeQuery, Connections.complete, foldl_deliver_mk_none, selectManager,
      createRequest_manager, hm, World.newManager, World.send, World.debugLines, queryFinished,
      callText, logSuccess, World.emit, delivered_append, delivered_debug] <;>
    simp [delivered]

theorem upload_delivers (d : HttpClientPrivate) (path : String) (hasErr : Bool)
    (enc : Encoding) (w : World) (chunks : List (List Nat)) (hr : w.fs.readable path = true) :
    delivered (completeOpt (upload d path (some logSuccess) (supplied hasErr logError) enc w).2.2
        { chunks := chunks, error := none }
        (upload d path (some logSuccess) (supplied hasErr logError) enc w).2.1).events
      = delivered w.events ++ [readReply chunks.flatten enc] := by
  cases hm : d.manager <;>
    simp [upload, completeOpt, Connections.complete, foldl_deliver_mk_none, selectManager,
      createRequest_manager, hm, hr, World.newManager, World.send, World.debugLines,
      World.newMultiPart, queryFinished, callText, logSuccess, World.emit, delivered_append,
      delivered_debug] <;>
    simp [delivered]

/-! ## Claims on decoding, headers, upload and the builder's state -/

/-- C15. When a transfer of get, post, put, remove or upload ends without a
transport error, `successHandler` is called once more, with the string the
read loop of `readReply` produces from the whole body; that string is the
body decoded with the requested encoding, split into lines at the line
terminators and the lines concatenated in order with nothing between them.
It contains no line feed, and the loop gives it with any fuel from the
length of the text on. -/
theorem success_receives_decoded_lines_joined (m : HttpMethod) (d : HttpClientPrivate)
    (path : String) (hasErr : Bool) (enc : Encoding) (w : World) (chunks : List (List Nat))
    (hr : w.fs.readable path = true) :
    delivered ((executeQuery m d (some logSuccess) (supplied hasErr logError) enc w).2.2.complete
        { chunks := chunks, error := none }
        (executeQuery m d (some logSuccess) (supplied hasErr logError) enc w).2.1).events
      = delivered w.events ++ [decodedLinesJoined chunks.flatten enc]
    ∧ delivered (completeOpt
        (upload d path (some logSuccess) (supplied hasErr logError) enc w).2.2
        { chunks := chunks, error := none }
        (upload d path (some logSuccess) (supplied hasErr logError) enc w).2.1).events
      = delivered w.events ++ [decodedLinesJoined chunks.flatten enc]
    ∧ readReply chunks.flatten enc = decodedLinesJoined chunks.flatten enc
    ∧ '\n' ∉ (decodedLinesJoined chunks.flatten enc).data
    ∧ ∀ fuel, (enc chunks.flatten).data.length ≤ fuel →
        String.mk (readLoop fuel (enc chunks.flatten).data [])
          = decodedLinesJoined chunks.flatten enc := by
  refine ⟨?_, ?_, readReply_eq _ _, ?_, ?_⟩
  · rw [executeQuery_delivers, readReply_eq]
  · rw [upload_delivers _ _ _ _ _ _ hr, readReply_eq]
  · rw [← readReply_eq]
    exact lineFeed_not_mem_readLoop _ _ _ (List.not_mem_nil _)
  · intro fuel hf
    rw [readLoop_eq _ _ _ hf]
    simp [decodedLinesJoined]

/-- Witness for C15: an upload whose response `ab\r\ncd\nef` arrives in two
chunks; the handler receives `abcdef`. -/
theorem success_receives_decoded_lines_joined_witness :
    delivered (completeOpt
        (upload (HttpClientPrivate.new "http://localhost:8080/webuploader") "ade.jpg"
          (some logSuccess) (supplied true logError) utf8 World.permissive).2.2
        { chunks := [[97, 98, 13, 10], [99, 100, 10, 101, 102]], error := none }
        (upload (HttpClientPrivate.new "http://localhost:8080/webuploader") "ade.jpg"
          (some logSuccess) (supplied true logError) utf8 World.permissive).2.1).events
      = delivered World.permissive.events ++ ["abcdef"] :=
  (success_receives_decoded_lines_joined .POST
    (HttpClientPrivate.new "http://localhost:8080/webuploader") "ade.jpg" true utf8
    World.permissive [[97, 98, 13, 10], [99, 100, 10, 101, 102]] rfl).2.1.trans (by decide)


theorem download_sent (d : HttpClientPrivate) (readyRead : DataHandler)
    (fh : VoidHandler) (eh : TextHandler) (w : World) :
    sent (download d readyRead fh eh w).2.1.events =
      sent w.events ++ [(transportOf d w, Verb.get, (createRequest .GET d).1, Body.none)] := by
  cases hm : d.manager <;>
    simp [download, selectManager, createRequest_manager, hm, World.newManager, World.send,
      World.debugLines, sent_append, sent_debug, transportOf] <;>
    simp [sent, Event.sent?]

theorem upload_sent (d : HttpClientPrivate) (path : String) (sh : TextHandler) (hasErr : Bool)
    (enc : Encoding) (w : World) :
    sent (upload d path sh (supplied hasErr logError) enc w).2.1.events =
      if !w.fs.readable path && hasErr then sent w.events
      else sent w.events ++
        [(d.manager.getD (w.nextId + 1), Verb.post, (createRequest .GET d).1,
          Body.multiPart w.nextId ["form-data; name=\"file\"; filename=\"" ++ path ++ "\""])] := by
  cases hm : d.manager <;> cases hr : w.fs.readable path <;> cases hasErr <;>
    simp [upload, selectManager, createRequest_manager, hm, hr, supplied, callText, logError,
      World.emit, World.newMultiPart, World.newManager, World.send, World.debugLines,
      sent_append, sent_debug] <;>
    simp [sent, Event.sent?]

theorem downloadTo_sent (d : HttpClientPrivate) (path : String) (fh : VoidHandler)
    (hasErr : Bool) (w : World) :
    sent (downloadTo d path fh (supplied hasErr logError) w).2.1.events =
      if w.fs.writable path then
        sent w.events ++ [(transportOf d w, Verb.get, (createRequest .GET d).1, Body.none)]
      else sent w.events := by
  cases hw : w.fs.writable path
  · cases hasErr <;> cases hd : d.debug <;>
      simp [downloadTo, hw, hd, supplied, callText, logError, World.emit, World.debugLines,
        sent_append, sent_debug] <;>
      simp [sent, Event.sent?]
  · simp only [downloadTo, hw, if_true]
    rw [download_sent]
    rfl

/-- C11, as stated, fails: for the path `/Users/Biao/Pictures/ade.jpg` of
`main.cpp`, whose base name is `ade.jpg`, the one part's disposition carries
the whole path as the file name. -/
theorem upload_disposition_carries_whole_path :
    baseName "/Users/Biao/Pictures/ade.jpg" = "ade.jpg"
    ∧ dispositions (upload (HttpClientPrivate.new "http://localhost:8080/webuploader")
        "/Users/Biao/Pictures/ade.jpg" none none utf8 World.permissive).2.1.events
      = [["form-data; name=\"file\"; filename=\"/Users/Biao/Pictures/ade.jpg\""]]
    ∧ dispositions (upload (HttpClientPrivate.new "http://localhost:8080/webuploader")
        "/Users/Biao/Pictures/ade.jpg" none none utf8 World.permissive).2.1.events
      ≠ [["form-data; name=\"file\"; filename=\""
            ++ baseName "/Users/Biao/Pictures/ade.jpg" ++ "\""]] := by
  refine ⟨?_, ?_, ?_⟩ <;> decide

/-- C11, amended. For every upload whose file opens, one transfer is started,
with the transport's `post`, and its multipart body has exactly one part,
whose disposition is `form-data; name="file"; filename="<path>"` with the
path exactly as it was given to `upload`. -/
theorem upload_posts_one_part_named_by_path (d : HttpClientPrivate) (path : String)
    (sh : TextHandler) (hasErr : Bool) (enc : Encoding) (w : World)
    (hr : w.fs.readable path = true) :
    (∃ k req id, sent (upload d path sh (supplied hasErr logError) enc w).2.1.events =
      sent w.events ++
        [(k, Verb.post, req,
          Body.multiPart id ["form-data; name=\"file\"; filename=\"" ++ path ++ "\""])])
    ∧ (upload d path sh (supplied hasErr logError) enc w).2.2.isSome = true := by
  constructor
  · refine ⟨d.manager.getD (w.nextId + 1), (createRequest .GET d).1, w.nextId, ?_⟩
    rw [upload_sent]
    simp [hr]
  · simp [upload, World.newMultiPart, hr]

/-- Witness for C11 amended: the upload of `main.cpp` on a readable file. -/
theorem upload_posts_one_part_named_by_path_witness :
    (upload (HttpClientPrivate.new "http://localhost:8080/webuploader")
      "/Users/Biao/Pictures/ade.jpg" none (supplied false logError) utf8
      World.permissive).2.2.isSome = true :=
  (upload_posts_one_part_named_by_path (HttpClientPrivate.new "http://localhost:8080/webuploader")
    "/Users/Biao/Pictures/ade.jpg" none false utf8 World.permissive rfl).2

theorem QHash.insert_insert_same (h : QHash) (k a b : String) :
    (h.insert k a).insert k b = h.insert k b := by
  simp [QHash.insert, List.filter_filter]

theorem QHash.entriesOf_insert_self (h : QHash) (k v : String) :
    (h.insert k v).entriesOf k = [(k, v)] := by
  simp [QHash.insert, QHash.entriesOf, List.filter_filter]

theorem QHash.entriesOf_insert_ne (h : QHash) (k v k2 : String) (hne : k2 ≠ k) :
    (h.insert k v).entriesOf k2 = h.entriesOf k2 := by
  have h1 : ¬ k = k2 := fun e => hne e.symm
  simp only [QHash.insert, QHash.entriesOf, List.filter_cons, List.filter_filter]
  simp only [h1, decide_False, Bool.false_eq_true, if_false]
  congr 1
  funext e
  by_cases he : e.1 = k2
  · simp [he, hne]
  · simp [he]

/-- C12. For every builder state, name `X` and values `a`, `b`: after
`header(X, a)` then `header(X, b)` the header map holds exactly one entry
for `X`, the entry `(X, b)`, so its value is `b` and `a` is gone; and
`header(X, a)` applied twice leaves the same builder state as once. -/
theorem header_last_write_wins (d : HttpClientPrivate) (X a b : String) :
    ((d.header X a).header X b).headers.entriesOf X = [(X, b)]
    ∧ ((d.header X a).header X b).headers.value X = some b
    ∧ (d.header X a).header X b = d.header X b
    ∧ (d.header X a).header X a = d.header X a := by
  refine ⟨?_, ?_, ?_, ?_⟩
  · exact QHash.entriesOf_insert_self _ _ _
  · exact QHash.value_insert_self _ _ _
  · simp [HttpClientPrivate.header, QHash.insert_insert_same]
  · simp [HttpClientPrivate.header, QHash.insert_insert_same]

/-- C13, as stated, fails: `Content-Type` and `content-type` differ only in
letter case, yet after `header("Content-Type", "a")` then
`header("content-type", "b")` the header map holds two entries, the value
under `Content-Type` is still `a`, and `createRequest` hands both entries to
the request. -/
theorem header_names_are_case_sensitive :
    sameNameIgnoringCase "Content-Type" "content-type" = true
    ∧ (((HttpClientPrivate.new "http://h/r").header "Content-Type" "a").header
        "content-type" "b").headers = [("content-type", "b"), ("Content-Type", "a")]
    ∧ QHash.value (((HttpClientPrivate.new "http://h/r").header "Content-Type" "a").header
        "content-type" "b").headers "Content-Type" = some "a"
    ∧ (createRequest .GET (((HttpClientPrivate.new "http://h/r").header "Content-Type" "a").header
        "content-type" "b")).1.rawHeaders = [("content-type", "b"), ("Content-Type", "a")] := by
  refine ⟨?_, ?_, ?_, ?_⟩ <;> decide

/-- C13, amended. Header keys are unique by their exact spelling: for every
builder state and every two names that are not the same string (also when
they differ only in letter case), `header(n1, a)` followed by `header(n2, b)`
leaves one entry for each name, `n1` with `a` and `n2` with `b`, and
`createRequest` for GET hands every entry of the map to the request. -/
theorem header_keys_unique_by_exact_name (d : HttpClientPrivate) (n1 n2 a b : String)
    (hne : n1 ≠ n2) :
    ((d.header n1 a).header n2 b).headers.entriesOf n1 = [(n1, a)]
    ∧ ((d.header n1 a).header n2 b).headers.entriesOf n2 = [(n2, b)]
    ∧ ((d.header n1 a).header n2 b).headers.value n1 = some a
    ∧ ((d.header n1 a).header n2 b).headers.value n2 = some b
    ∧ (createRequest .GET ((d.header n1 a).header n2 b)).1.rawHeaders
        = ((d.header n1 a).header n2 b).headers := by
  refine ⟨?_, ?_, ?_, ?_, ?_⟩
  · show QHash.entriesOf (QHash.insert (QHash.insert d.headers n1 a) n2 b) n1 = _
    rw [QHash.entriesOf_insert_ne _ _ _ _ hne, QHash.entriesOf_insert_self]
  · exact QHash.entriesOf_insert_self _ _ _
  · show QHash.value (QHash.insert (QHash.insert d.headers n1 a) n2 b) n1 = _
    rw [QHash.value_insert_ne _ _ _ _ hne, QHash.value_insert_self]
  · exact QHash.value_insert_self _ _ _
  · unfold createRequest
    simp only [decide_True, Bool.not_true, Bool.false_and, Bool.false_eq_true, if_false]
    split_ifs <;> rfl

/-- Witness for C13 amended: the two spellings of `Content-Type`. -/
theorem header_keys_unique_by_exact_name_witness :
    QHash.entriesOf (((HttpClientPrivate.new "http://h/r").header "Content-Type" "a").header
        "content-type" "b").headers "Content-Type" = [("Content-Type", "a")] :=
  (header_keys_unique_by_exact_name (HttpClientPrivate.new "http://h/r")
    "Content-Type" "content-type" "a" "b" (by decide)).1

theorem createRequest_setDebug (m : HttpMethod) (d : HttpClientPrivate) (b : Bool) :
    (createRequest m (d.setDebug b)).1 = (createRequest m d).1
      ∧ (createRequest m (d.setDebug b)).2.1 = (createRequest m d).2.1.setDebug b := by
  unfold createRequest
  simp only [HttpClientPrivate.setDebug]
  split_ifs <;> exact ⟨rfl, rfl⟩

theorem requestBody_setDebug (m : HttpMethod) (d : HttpClientPrivate) (b : Bool) :
    requestBody m (d.setDebug b) = requestBody m d := by
  cases m <;> rfl

/-- C14. The debug flag does not alter the request: for every method, every
builder state `d` and every value of the flag, `createRequest` on `d` with
the flag set to that value builds the same request (URL and headers),
leaves the same builder state apart from the flag itself, and `executeQuery`
sends the same body; every terminal call (get, post, put, remove, download to
a sink or to a file, upload) starts the same transfers, on the same
transport, with the same URL, headers and body. -/
theorem debug_does_not_alter_request (m : HttpMethod) (d : HttpClientPrivate) (b : Bool)
    (c : TerminalCall) (hasOk hasErr : Bool) (enc : Encoding) (w : World) :
    (createRequest m (d.setDebug b)).1 = (createRequest m d).1
    ∧ (createRequest m (d.setDebug b)).2.1 = (createRequest m d).2.1.setDebug b
    ∧ requestBody m (createRequest m (d.setDebug b)).2.1 = requestBody m (createRequest m d).2.1
    ∧ sent (c.run (d.setDebug b) hasOk hasErr enc w).2.1.events
        = sent (c.run d hasOk hasErr enc w).2.1.events := by
  have hq : ∀ k : HttpMethod, ∀ sh eh : TextHandler,
      sent (executeQuery k (d.setDebug b) sh eh enc w).2.1.events
        = sent (executeQuery k d sh eh enc w).2.1.events := by
    intro k sh eh
    rw [executeQuery_sent, executeQuery_sent, (createRequest_setDebug k d b).1,
      (createRequest_setDebug k d b).2, requestBody_setDebug]
    rfl
  refine ⟨(createRequest_setDebug m d b).1, (createRequest_setDebug m d b).2, ?_, ?_⟩
  · rw [(createRequest_setDebug m d b).2, requestBody_setDebug]
  · cases c
    case download =>
      simp only [TerminalCall.run]
      rw [download_sent, download_sent, (createRequest_setDebug .GET d b).1]
      rfl
    case downloadTo path =>
      simp only [TerminalCall.run]
      rw [downloadTo_sent, downloadTo_sent, (createRequest_setDebug .GET d b).1]
      rfl
    case upload path =>
      simp only [TerminalCall.run]
      rw [upload_sent, upload_sent, (createRequest_setDebug .GET d b).1]
      rfl
    all_goals
      simp only [TerminalCall.run, get, post, put, remove]
      exact hq _ _ _

theorem createRequest_after (m : HttpMethod) (d : HttpClientPrivate) :
    (createRequest m d).2.1.url = (createRequest m d).1.url
      ∧ (createRequest m d).2.1.headers = (createRequest m d).1.rawHeaders
      ∧ (createRequest m d).2.1.debug = d.debug := by
  cases m <;> cases hj : d.useJson <;> cases hp : d.params <;> simp [createRequest, hj, hp]

theorem createRequest_headers_again (m : HttpMethod) (d : HttpClientPrivate) :
    (createRequest m (createRequest m d).2.1).1.rawHeaders = (createRequest m d).1.rawHeaders := by
  by_cases hm : m = .GET
  · subst hm
    unfold createRequest
    simp only [decide_True, Bool.not_true, Bool.false_and, Bool.false_eq_true, if_false]
    split_ifs <;> rfl
  · have hu := (createRequest_state m d).2.2
    have hh := (createRequest_after m d).2.1
    rw [createRequest_nonget_headers m _ hm, hu, hh, createRequest_nonget_headers m d hm]
    cases hj : d.useJson
    · simp [QHash.insert_insert_same]
    · simp [QHash.insert, List.filter_filter]
      congr 1
      funext e
      by_cases h1 : e.1 = "Accept" <;> by_cases h2 : e.1 = "Content-Type" <;> simp [h1, h2]

theorem createRequest_url_again (m : HttpMethod) (d : HttpClientPrivate)
    (h : m ≠ .GET ∨ d.params = []) :
    (createRequest m (createRequest m d).2.1).1.url = (createRequest m d).1.url := by
  rcases h with h | h
  · rw [createRequest_nonget_url m _ h, (createRequest_after m d).1]
  · have hp := (createRequest_state m d).1
    have hu := (createRequest_after m d).1
    have key : ∀ x : HttpClientPrivate, x.params = [] → (createRequest m x).1.url = x.url := by
      intro x hx
      unfold createRequest
      simp only [hx, List.isEmpty_nil, Bool.not_true, Bool.and_false, Bool.false_eq_true,
        if_false]
      split_ifs <;> rfl
    rw [key _ (hp.trans h), hu]

/-- C17, as stated, fails: on the builder `HttpClient("http://h/r")` with
the parameter a="1", `createRequest` for GET changes the builder's URL, and
for POST its headers; a second GET on the same builder dispatches
`http://h/r?a=1?a=1`, not the `http://h/r?a=1` of the first. -/
theorem createRequest_writes_url_and_headers :
    (createRequest .GET ((HttpClientPrivate.new "http://h/r").param "a" "1")).2.1.url
        = "http://h/r?a=1"
    ∧ ((HttpClientPrivate.new "http://h/r").param "a" "1").url = "http://h/r"
    ∧ (createRequest .POST ((HttpClientPrivate.new "http://h/r").param "a" "1")).2.1.headers
        = [("Content-Type", "application/x-www-form-urlencoded")]
    ∧ ((HttpClientPrivate.new "http://h/r").param "a" "1").headers = []
    ∧ (createRequest .GET ((HttpClientPrivate.new "http://h/r").param "a" "1")).1.url
        = "http://h/r?a=1"
    ∧ (createRequest .GET
        (createRequest .GET ((HttpClientPrivate.new "http://h/r").param "a" "1")).2.1).1.url
        = "http://h/r?a=1?a=1" := by
  refine ⟨?_, ?_, ?_, ?_, ?_, ?_⟩ <;> decide

/-- C17, amended. For every builder state and every method, `createRequest`
leaves the builder's params, json, JSON flag, debug flag and manager as they
were, and writes the request's URL and headers back to the builder. The same
call issued again on the builder dispatches the same headers, and the same
URL when the method is not GET or there are no parameters. -/
theorem createRequest_frame_and_repeat (m : HttpMethod) (d : HttpClientPrivate) :
    (createRequest m d).2.1.params = d.params
    ∧ (createRequest m d).2.1.json = d.json
    ∧ (createRequest m d).2.1.useJson = d.useJson
    ∧ (createRequest m d).2.1.debug = d.debug
    ∧ (createRequest m d).2.1.manager = d.manager
    ∧ (createRequest m d).2.1.url = (createRequest m d).1.url
    ∧ (createRequest m d).2.1.headers = (createRequest m d).1.rawHeaders
    ∧ (createRequest m (createRequest m d).2.1).1.rawHeaders = (createRequest m d).1.rawHeaders
    ∧ (m ≠ .GET ∨ d.params = [] →
        (createRequest m (createRequest m d).2.1).1.url = (createRequest m d).1.url) :=
  ⟨(createRequest_state m d).1, (createRequest_state m d).2.1, (createRequest_state m d).2.2,
    (createRequest_after m d).2.2, createRequest_manager m d, (createRequest_after m d).1,
    (createRequest_after m d).2.1, createRequest_headers_again m d,
    createRequest_url_again m d⟩

/-- Witness for C17 amended: a PUT with JSON and a caller header, twice. -/
theorem createRequest_frame_and_repeat_witness :
    (createRequest .PUT (createRequest .PUT
        (((HttpClientPrivate.new "http://h/r").setJson "[1]").header "Accept" "text/html")).2.1).1.url
      = (createRequest .PUT
        (((HttpClientPrivate.new "http://h/r").setJson "[1]").header "Accept" "text/html")).1.url :=
  (createRequest_frame_and_repeat .PUT
    (((HttpClientPrivate.new "http://h/r").setJson "[1]").header "Accept" "text/html")).2.2.2.2.2.2.2.2
    (Or.inl (by decide))

end HttpClient
